import Mathlib

/-!
Verification of the palette-swap color-remapping engine.

The development shallowly embeds the two generations of the engine found in
the repository:

* namespace `PS`  : the current engine in `src/palette-swap.ts`
  (packed 32-bit pixel buffers, shared palette lookup across variants,
  per-row missing check, diff against prior images);
* namespace `PS0` : the previous generation of the library
  (hex-string based pixel classification, `rgbaToHex` / `hexToRgba`,
  `rgbToHsl` / `hslToRgb`, per-variant missing check).

JavaScript numbers are modelled by `ℚ` (the arithmetic performed here is
exact on the byte-valued inputs the engine feeds it); machine integers are
`ℕ` with explicit masking where the code masks.  Fallible code returns
`Except`.  Pixel buffers are lists of packed 32-bit words (`PS`) or of raw
RGBA bytes (`PS0`), exactly the layout the code reads and writes.
-/

/-- JavaScript `ToInt32` truncation as used by the shift/or operators on the
values that occur in this program (all lie in `[0, 255]`, so no `2^32`
wrap-around and no negative values arise): truncation toward zero,
computed directly on the fraction so that it evaluates by kernel
reduction. -/
def jsTruncNat (q : ℚ) : ℕ := (Int.fdiv q.num q.den).toNat

/-- `Math.round`, i.e. `⌊q + 1/2⌋` (see `jsRound_eq_round`), computed
directly on the fraction so that it evaluates by kernel reduction. -/
def jsRound (q : ℚ) : ℤ := Int.fdiv (2 * q.num + q.den) (2 * q.den)

/-- Value of a single hexadecimal digit character, `none` for non-digits. -/
def hexDigitVal (c : Char) : Option ℕ :=
  if '0' ≤ c ∧ c ≤ '9' then some (c.toNat - 48)
  else if 'a' ≤ c ∧ c ≤ 'f' then some (c.toNat - 87)
  else if 'A' ≤ c ∧ c ≤ 'F' then some (c.toNat - 55)
  else none

/-- Accumulating hex parse of the longest leading digit run. -/
def parseHexCore : List Char → ℕ → ℕ
  | [], acc => acc
  | c :: cs, acc =>
    match hexDigitVal c with
    | some d => parseHexCore cs (acc * 16 + d)
    | none => acc

/-- Models `Number.parseInt(s, 16)` on the inputs this program feeds it
(plain digit strings; no sign/whitespace/`0x` handling is exercised):
`none` models `NaN` (no leading hex digit), otherwise the value of the
longest leading run of hex digits. -/
def parseHexNat (s : String) : Option ℕ :=
  match s.data with
  | [] => none
  | c :: _ => if (hexDigitVal c).isSome then some (parseHexCore s.data 0) else none

/-- `padStart(2, '0')` on a character list. -/
def padHex2 (l : List Char) : List Char :=
  if l.length < 2 then List.replicate (2 - l.length) '0' ++ l else l

/-- Independent canonical rendering of a byte as two hex digits
(high digit, low digit); used as the specification side when checking the
code's `toString(16)`/`padStart` formatting. -/
def canonHexByte (n : ℕ) : String := ⟨[Nat.digitChar (n / 16), Nat.digitChar (n % 16)]⟩

/-- Iteration order of `new Set(list)` in JavaScript: de-duplicated,
first occurrence first. -/
def firstSeenDedup {α : Type} [DecidableEq α] (l : List α) : List α :=
  l.foldl (fun acc x => if x ∈ acc then acc else acc ++ [x]) []

/-- `Map.get` on a JavaScript `Map` built from an entry list: for duplicate
keys the last binding wins. -/
def mapGet {α β : Type} [DecidableEq α] (es : List (α × β)) (k : α) : Option β :=
  (es.reverse.find? (fun kv => kv.1 = k)).map (fun kv => kv.2)

/-- The shared body of the hue-reconstruction loop (`t3` adjustment followed
by the four-piece interpolation), identical in `applyHue`
(`src/palette-swap.ts` lines 69-90) and `hslToRgb` (previous generation,
lines 90-111). -/
def hueChannel (t1 t2 t3 : ℚ) : ℚ :=
  let u1 := if t3 < 0 then t3 + 1 else t3
  let u2 := if u1 > 1 then u1 - 1 else u1
  if 6 * u2 < 1 then t1 + (t2 - t1) * 6 * u2
  else if 2 * u2 < 1 then t2
  else if 3 * u2 < 2 then t1 + (t2 - t1) * (2 / 3 - u2) * 6
  else t1

/-- A prior image supplied by the caller: its own dimensions and pixel data
(packed words for `PS`, raw bytes for `PS0`). -/
structure Prior where
  width : ℕ
  height : ℕ
  data : List ℕ
deriving DecidableEq

namespace PS

/-- `int32ToRgb` (`src/palette-swap.ts` lines 23-28). -/
def int32ToRgb (color : ℕ) : ℕ × ℕ × ℕ :=
  (((color >>> 16) &&& 0xff), ((color >>> 8) &&& 0xff), (color &&& 0xff))

/-- `hex` (`src/palette-swap.ts` line 30): `Math.round`, `toString(16)`,
`padStart(2, '0')`. -/
def hex (value : ℚ) : String := ⟨padHex2 (Nat.toDigits 16 (jsRound value).toNat)⟩

/-- `rgbToHex` (`src/palette-swap.ts` line 31). -/
def rgbToHex (rgb : ℕ × ℕ × ℕ) : String :=
  "#" ++ hex rgb.1 ++ hex rgb.2.1 ++ hex rgb.2.2

/-- `int32ToHex` (`src/palette-swap.ts` line 32). -/
def int32ToHex (color : ℕ) : String := rgbToHex (int32ToRgb color)

/-- `hexToInt32` (`src/palette-swap.ts` lines 17-21).  `parseInt(...) &
0x00ffffff` is the low 24 bits of the parsed value, with `NaN` masking to
`0` (`ToInt32(NaN) = 0`); the `int32ToRgb` round trip then swaps the red
and blue bytes into the little-endian pixel packing. -/
def hexToInt32 (s : String) : ℕ :=
  let n := ((parseHexNat (s.drop 1)).getD 0) % 2 ^ 24
  let rgb := int32ToRgb n
  (rgb.2.2 <<< 16) ||| (rgb.2.1 <<< 8) ||| rgb.1

/-- `applyHue` (`src/palette-swap.ts` lines 34-93).  The input triple is
what `int32ToRgb` produced from the packed pixel value; the result feeds
`(a << 24) | ...`, the shifts truncating each channel (`ToInt32`). -/
def applyHue (rgb : ℕ × ℕ × ℕ) (hue : ℚ) : ℕ :=
  let h := hue / 360
  let r := (rgb.1 : ℚ) / 255
  let g := (rgb.2.1 : ℚ) / 255
  let b := (rgb.2.2 : ℚ) / 255
  let mn := min r (min g b)
  let mx := max r (max g b)
  let delta := mx - mn
  let l := (mn + mx) / 2
  let s := if mx = mn then 0
    else if l ≤ 1 / 2 then delta / (mx + mn)
    else delta / (2 - mx - mn)
  if s = 0 then
    let val := jsTruncNat (l * 255)
    (val <<< 16) ||| (val <<< 8) ||| val
  else
    let t2 := if l < 1 / 2 then l * (1 + s) else l + s - l * s
    let t1 := 2 * l - t2
    let v0 := hueChannel t1 t2 (h + 1 / 3 * -(2 - 0 - 1))
    let v1 := hueChannel t1 t2 (h + 1 / 3 * -(2 - 1 - 1))
    let v2 := hueChannel t1 t2 (h + 1 / 3 * -((2 : ℚ) - 2 - 1))
    (jsTruncNat (v0 * 255) <<< 16) ||| (jsTruncNat (v1 * 255) <<< 8) ||| jsTruncNat (v2 * 255)

/-- A variant specification: an explicit color table (`ReadonlyMap<HEX, HEX>`)
or a uniform hue (`Hue`). -/
inductive VSpec : Type
  | table (entries : List (String × String))
  | hue (h : ℚ)
deriving DecidableEq

/-- One fold step of the palette-compilation inner loop
(`src/palette-swap.ts` lines 148-153): slot `i` of the array for key
`hexToInt32 k` is overwritten with `hexToInt32 v`. -/
def insertEntry (i : ℕ) (kv : String × String) (pal : ℕ → ℕ → Option ℕ) :
    ℕ → ℕ → Option ℕ :=
  fun key j =>
    if key = hexToInt32 kv.1 ∧ j = i then some (hexToInt32 kv.2) else pal key j

/-- Palette compilation (`src/palette-swap.ts` lines 141-163): for each
variant position `i` whose spec is a table, insert/overwrite slot `i` of
each source color's replacement array.  `pal key i = none` covers both
"`palettes.get(key)` is undefined" and "slot `i` of the array is a hole",
which the pixel loop treats identically (`colors?.[i]`). -/
def compileGo : ℕ → List VSpec → (ℕ → ℕ → Option ℕ) → (ℕ → ℕ → Option ℕ)
  | _, [], pal => pal
  | i, .hue _ :: rest, pal => compileGo (i + 1) rest pal
  | i, .table es :: rest, pal => compileGo (i + 1) rest (es.foldl (fun p kv => insertEntry i kv p) pal)

/-- The compiled `palettes` lookup. -/
def compilePalettes (specs : List VSpec) : ℕ → ℕ → Option ℕ :=
  compileGo 0 specs (fun _ _ => none)

/-- What one variant's own table contributes for a packed source color:
the last entry whose key packs to `color` wins (`v[i] = hexToInt32(value)`
runs in entry order, later writes overwriting earlier ones).  Related to
the compiled lookup by `compilePalettes_table`. -/
def tableLookup (es : List (String × String)) (color : ℕ) : Option ℕ :=
  (es.reverse.find? (fun kv => hexToInt32 kv.1 = color)).map (fun kv => hexToInt32 kv.2)

/-- Branches after the falsy hue test (`src/palette-swap.ts` lines
191-197): `colors?.[i]` (a present entry of value `0` is falsy), the
no-static-set passthrough, and the missing case. -/
def tableFallback (statics : Option (List ℕ)) (pal : ℕ → ℕ → Option ℕ)
    (a color oc i : ℕ) : Option ℕ :=
  match pal color i with
  | some v =>
    if v ≠ 0 then some ((a <<< 24) ||| v)
    else match statics with
      | none => some oc
      | some _ => none
  | none =>
    match statics with
    | none => some oc
    | some _ => none

/-- The per-variant classification body (`src/palette-swap.ts` lines
181-197) for a non-transparent pixel with packed value `oc`:
`some v` means `v` is written at the pixel's index of variant `i`'s buffer,
`none` means the missing branch was taken (nothing written). -/
def variantWrite (statics : Option (List ℕ)) (pal : ℕ → ℕ → Option ℕ)
    (spec : VSpec) (i oc : ℕ) : Option ℕ :=
  let a := (oc >>> 24) &&& 0xff
  let color := oc &&& 0xffffff
  let isStatic := match statics with
    | none => false
    | some l => color ∈ l
  if isStatic then some oc
  else
    let hue : Option ℚ := match spec with
      | .hue h => some h
      | .table _ => none
    match hue with
    | some h =>
      if h ≠ 0 then some ((a <<< 24) ||| applyHue (int32ToRgb color) h)
      else tableFallback statics pal a color oc i
    | none => tableFallback statics pal a color oc i

/-- Loop state of the pixel scan: one zero-initialized output buffer per
variant, and the `missing` collection.  The JS `missing` is a `Set` of
freshly allocated pairs, so insertion never de-duplicates; a plain list in
insertion order models it exactly. -/
structure SwapState where
  buffers : List (List ℕ)
  missing : List (String × ℕ)
deriving DecidableEq

/-- The inner `for (let i = 0; i < variants.length; i++)` loop
(`src/palette-swap.ts` lines 181-198), threading each variant's buffer. -/
def processVariants (statics : Option (List ℕ)) (pal : ℕ → ℕ → Option ℕ)
    (idx oc : ℕ) :
    ℕ → List VSpec → List String → List (List ℕ) → List (List ℕ) × List (String × ℕ)
  | _, [], _, bufs => (bufs, [])
  | _, _ :: _, [], bufs => (bufs, [])
  | _, _ :: _, _ :: _, [] => ([], [])
  | i, spec :: specs, name :: names, buf :: bufs =>
    let head : List ℕ × List (String × ℕ) :=
      match variantWrite statics pal spec i oc with
      | some v => (buf.set idx v, [])
      | none => (buf, [(name, oc &&& 0xffffff)])
    let rest := processVariants statics pal idx oc (i + 1) specs names bufs
    (head.1 :: rest.1, head.2 ++ rest.2)

/-- Static context of one `paletteSwap` call. -/
structure Ctx where
  width : ℕ
  height : ℕ
  src : List ℕ
  specs : List VSpec
  names : List String
  statics : Option (List ℕ)

/-- The compiled palette lookup of a call context. -/
def Ctx.pal (c : Ctx) : ℕ → ℕ → Option ℕ := compilePalettes c.specs

/-- Processing of one pixel (`src/palette-swap.ts` lines 171-198):
fully transparent pixels are skipped (`continue`), leaving the state
untouched. -/
def processPixel (ctx : Ctx) (idx : ℕ) (st : SwapState) : SwapState :=
  let oc := ctx.src.getD idx 0
  if (oc >>> 24) &&& 0xff = 0 then st
  else
    let r := processVariants ctx.statics ctx.pal idx oc 0 ctx.specs ctx.names st.buffers
    ⟨r.1, st.missing ++ r.2⟩

/-- The inner `x` loop over one row. -/
def processRow (ctx : Ctx) (y : ℕ) (st : SwapState) : SwapState :=
  (List.range ctx.width).foldl (fun s x => processPixel ctx (y * ctx.width + x) s) st

/-- The aggregated missing-mapping error: the message enumerates
`int32ToHex` of each recorded packed color and each affected variant name,
both de-duplicated in first-seen order (`new Set(...)` at
`src/palette-swap.ts` lines 203-209). -/
structure MissingColorMapping where
  colors : List String
  variantNames : List String
deriving DecidableEq

/-- Builds the error from the recorded missing pairs. -/
def mkMissingError (missing : List (String × ℕ)) : MissingColorMapping :=
  ⟨firstSeenDedup (missing.map (fun p => int32ToHex p.2)),
   firstSeenDedup (missing.map (fun p => p.1))⟩

/-- The `y` loop (`src/palette-swap.ts` lines 169-212): after each row the
code checks `!options?.ignoreMissing && missing.size` and throws. -/
def runRows (ctx : Ctx) (ignoreMissing : Bool) :
    List ℕ → SwapState → Except MissingColorMapping SwapState
  | [], st => .ok st
  | y :: ys, st =>
    let st1 := processRow ctx y st
    if ignoreMissing = false ∧ st1.missing ≠ [] then .error (mkMissingError st1.missing)
    else runRows ctx ignoreMissing ys st1

/-- The zero-initialized per-variant buffers
(`createImageData(new Uint8ClampedArray(width * height * 4), width)`). -/
def initState (ctx : Ctx) : SwapState :=
  ⟨ctx.specs.map (fun _ => List.replicate (ctx.width * ctx.height) 0), []⟩

/-- Pure iteration of the row loop, for stating properties of the computed
buffers: the state after the first `k` rows. -/
def stateAfter (ctx : Ctx) (k : ℕ) : SwapState :=
  (List.range k).foldl (fun st y => processRow ctx y st) (initState ctx)

/-- An `ImageData`: width, height and pixel data (packed words here; equality
of the packed words is equality of the underlying RGBA bytes). -/
structure ImageDataM where
  width : ℕ
  height : ℕ
  data : List ℕ
deriving DecidableEq

/-- The element comparison loop of `equals` (`src/palette-swap.ts` lines
106-110): every index of `a` must match `b` (`b.data[i]` reads as
`undefined` past the end and then never equals a number). -/
def equalsData : List ℕ → List ℕ → Bool
  | [], _ => true
  | _ :: _, [] => false
  | x :: xs, y :: ys => x = y && equalsData xs ys

/-- `equals` (`src/palette-swap.ts` lines 102-112). -/
def equals (a b : ImageDataM) : Bool :=
  if a.width ≠ b.width ∨ a.height ≠ b.height then false
  else equalsData a.data b.data

/-- Models `createCanvasFromImage(existingImage).getContext('2d')
.getImageData(0, 0, width, height)` (`src/palette-swap.ts` lines 217-221):
per the canvas specification the returned `ImageData` has exactly the
requested dimensions, pixels outside the drawn prior image reading as
transparent black. -/
def getImageDataM (w h : ℕ) (p : Prior) : ImageDataM :=
  ⟨w, h,
   (List.range h).flatMap (fun y =>
     (List.range w).map (fun x =>
       if x < p.width ∧ y < p.height then p.data.getD (y * p.width + x) 0 else 0))⟩

/-- `images?.get(name)` (`src/palette-swap.ts` line 216). -/
def priorLookup (images : Option (List (String × Prior))) (name : String) : Option Prior :=
  match images with
  | none => none
  | some m => mapGet m name

/-- The keep condition of the result loop (`src/palette-swap.ts` line 224):
`!existingImageData || !equals(newImageData, existingImageData)`. -/
def keepVariant (images : Option (List (String × Prior))) (w h : ℕ)
    (name : String) (buf : List ℕ) : Bool :=
  match priorLookup images name with
  | none => true
  | some p => !(equals ⟨w, h, buf⟩ (getImageDataM w h p))

/-- The result loop (`src/palette-swap.ts` lines 214-229): a variant is kept
unless a prior image exists and compares equal; the result canvas's pixels
are exactly the computed buffer (`putImageData` overwrites the whole
rectangle). -/
def diffPhase (images : Option (List (String × Prior))) (w h : ℕ) :
    List (String × List ℕ) → List (String × List ℕ)
  | [] => []
  | (name, buf) :: rest =>
    (if keepVariant images w h name buf then [(name, buf)] else []) ++ diffPhase images w h rest

/-- The value the pixel scan writes at pixel `idx` of variant `i`'s buffer:
`none` when nothing is written there (transparent pixel, or the missing
branch), `some v` when `v` is written.  This is the pointwise abstraction
of the imperative loop, related to it by `stateAfter_buffers_getD`. -/
def pixWrite (ctx : Ctx) (i idx : ℕ) : Option ℕ :=
  let oc := ctx.src.getD idx 0
  if (oc >>> 24) &&& 0xff = 0 then none
  else variantWrite ctx.statics ctx.pal (ctx.specs.getD i (.table [])) i oc

/-- Folding the pixel step over an explicit list of pixel indices. -/
def foldPixels (ctx : Ctx) (l : List ℕ) (st : SwapState) : SwapState :=
  l.foldl (fun s j => processPixel ctx j s) st

/-- The row-major enumeration of pixel indices covered by the first `k`
rows. -/
def pixelOrder (ctx : Ctx) (k : ℕ) : List ℕ :=
  (List.range k).flatMap (fun y => (List.range ctx.width).map (fun x => y * ctx.width + x))

/-- Well-formedness of the scan state: one buffer per variant, each of the
image's size. -/
def stWF (ctx : Ctx) (st : SwapState) : Prop :=
  st.buffers.length = ctx.specs.length ∧
  ∀ i, i < ctx.specs.length → (st.buffers.getD i []).length = ctx.width * ctx.height

/-- `paletteSwap` (`src/palette-swap.ts` lines 114-232).  The source image
arrives as its packed `Uint32Array` view (`a<<24 | b<<16 | g<<8 | r` per
pixel); variant names are strings; `staticColors = none` models the
absent/null argument (an empty set is truthy in JS and maps to
`some []`). -/
def mkCtx (width height : ℕ) (src : List ℕ) (inputVariants : List (String × VSpec))
    (staticColors : Option (List String)) : Ctx :=
  ⟨width, height, src, inputVariants.map (fun v => v.2),
   inputVariants.map (fun v => v.1),
   staticColors.map (fun l => l.map hexToInt32)⟩

def paletteSwap (width height : ℕ) (src : List ℕ)
    (inputVariants : List (String × VSpec))
    (staticColors : Option (List String))
    (images : Option (List (String × Prior)))
    (ignoreMissing : Bool) : Except MissingColorMapping (List (String × List ℕ)) :=
  let ctx : Ctx := mkCtx width height src inputVariants staticColors
  match runRows ctx ignoreMissing (List.range height) (initState ctx) with
  | .error e => .error e
  | .ok st => .ok (diffPhase images width height (ctx.names.zip st.buffers))

end PS

namespace PS0

/-- Errors of the previous-generation engine: `Invalid color '...'` thrown by
`hexToRgba`, and the per-variant missing-mapping error (its message joins
the recorded hex colors and names the single variant). -/
inductive SwapError : Type
  | invalidColor (hex : String)
  | missingMapping (colors : List String) (variant : String)
deriving DecidableEq

/-- `hex` (previous generation, line 18): identical to the current file's
helper. -/
def hex (value : ℚ) : String := ⟨padHex2 (Nat.toDigits 16 (jsRound value).toNat)⟩

/-- `rgbaToHex` (previous generation, lines 20-22).  `a` is `none` when the
alpha argument was omitted; the appended-alpha condition mirrors
`a && a !== 255` (so `0` is falsy and appends nothing). -/
def rgbaToHex (r g b : ℚ) (a : Option ℚ) : String :=
  "#" ++ hex r ++ hex g ++ hex b ++
    (match a with
     | some av => if av ≠ 0 ∧ av ≠ 255 then hex av else ""
     | none => "")

/-- JavaScript `\w`: ASCII letters, digits and underscore. -/
def isWordChar (c : Char) : Bool :=
  ('a' ≤ c ∧ c ≤ 'z') ∨ ('A' ≤ c ∧ c ≤ 'Z') ∨ ('0' ≤ c ∧ c ≤ '9') ∨ c = '_'

/-- Worker for `wordPairs`: `pending` is the character at the regex engine's
current position waiting for a partner; on a match both characters are
consumed, otherwise the position advances by one. -/
def wordPairsGo : Option Char → List Char → List (Char × Char)
  | _, [] => []
  | none, c :: rest => wordPairsGo (some c) rest
  | some p, c :: rest =>
    if isWordChar p ∧ isWordChar c then (p, c) :: wordPairsGo none rest
    else wordPairsGo (some c) rest

/-- The global scan of `hex.match(/\w\w/g)`: leftmost non-overlapping pairs
of word characters. -/
def wordPairs (l : List Char) : List (Char × Char) := wordPairsGo none l

/-- `hexToRgba` (previous generation, lines 24-30): throws
`Invalid color '...'` exactly when the regex found no match (`match`
returned `null`); otherwise `parseInt(part, 16)` on each pair, `none`
modelling `NaN` (pair not starting with a hex digit). -/
def hexToRgba (s : String) : Except SwapError (List (Option ℕ)) :=
  let ps := wordPairs s.data
  if ps = [] then .error (.invalidColor s)
  else .ok (ps.map (fun p => parseHexNat ⟨[p.1, p.2]⟩))

/-- `rgbToHsl` (previous generation, lines 32-67). -/
def rgbToHsl (rgb : ℚ × ℚ × ℚ) : ℚ × ℚ × ℚ :=
  let r := rgb.1 / 255
  let g := rgb.2.1 / 255
  let b := rgb.2.2 / 255
  let mn := min r (min g b)
  let mx := max r (max g b)
  let delta := mx - mn
  let h0 : ℚ :=
    if mx = mn then 0
    else if r = mx then (g - b) / delta
    else if g = mx then 2 + (b - r) / delta
    else if b = mx then 4 + (r - g) / delta
    else 0
  let h1 := min (h0 * 60) 360
  let h2 := if h1 < 0 then h1 + 360 else h1
  let l := (mn + mx) / 2
  let s :=
    if mx = mn then 0
    else if l ≤ 1 / 2 then delta / (mx + mn)
    else delta / (2 - mx - mn)
  (h2, s * 100, l * 100)

/-- `hslToRgb` (previous generation, lines 69-114); the loop body is the
shared `hueChannel`, with `t3 = h + (1/3) * -(i - 1)` for `i = 0, 1, 2`. -/
def hslToRgb (hsl : ℚ × ℚ × ℚ) : ℚ × ℚ × ℚ :=
  let h := hsl.1 / 360
  let s := hsl.2.1 / 100
  let l := hsl.2.2 / 100
  if s = 0 then (l * 255, l * 255, l * 255)
  else
    let t2 := if l < 1 / 2 then l * (1 + s) else l + s - l * s
    let t1 := 2 * l - t2
    (hueChannel t1 t2 (h + 1 / 3 * -(0 - 1)) * 255,
     hueChannel t1 t2 (h + 1 / 3 * -(1 - 1)) * 255,
     hueChannel t1 t2 (h + 1 / 3 * -((2 : ℚ) - 1)) * 255)

/-- `hslToHex` (previous generation, lines 116-119): no alpha argument. -/
def hslToHex (hsl : ℚ × ℚ × ℚ) : String :=
  let rgb := hslToRgb hsl
  rgbaToHex rgb.1 rgb.2.1 rgb.2.2 none

/-- `applyHue` (previous generation, lines 121-130): keeps the source's
saturation and lightness, replaces the hue, and appends the original alpha
byte to the hex string. -/
def applyHue (r g b a hue : ℚ) : String :=
  let hsl := rgbToHsl (r, g, b)
  hslToHex (hue, hsl.2.1, hsl.2.2) ++ hex a

/-- A table value of the previous generation: a target hex color or a target
hue (`Variant = HEX | Hue`). -/
inductive Variant0 : Type
  | colorV (s : String)
  | hueV (q : ℚ)
deriving DecidableEq

/-- A variant spec of the previous generation: a color table or a uniform
hue. -/
inductive VSpec0 : Type
  | table (es : List (String × Variant0))
  | hue (q : ℚ)
deriving DecidableEq

/-- Writing into a `Uint8ClampedArray`: `NaN` (`none`) clamps to `0`, values
above 255 clamp to 255 (two-digit parses are already bytes). -/
def clampByte (o : Option ℕ) : ℕ := min (o.getD 0) 255

/-- `set` (previous generation, lines 151-163): writes the four RGBA bytes
at offset `i`. -/
def setPix (d : List ℕ) (i r g b a : ℕ) : List ℕ :=
  (((d.set i r).set (i + 1) g).set (i + 2) b).set (i + 3) a

/-- `staticColors?.has(hex)`. -/
def staticsHas (statics : Option (List String)) (hx : String) : Bool :=
  match statics with
  | none => false
  | some l => hx ∈ l

/-- Reads the destructured channel `[newR, newG, newB, newA]` at position
`j`: a missing element is `undefined` (writes as 0 through the clamped
array), a `none` entry is `NaN` (also 0). -/
def chanByte (parts : List (Option ℕ)) (j : ℕ) : ℕ := clampByte (parts.getD j none)

/-- `newA != null ? newA : 255`: a missing fourth element (`undefined`)
gives 255, while a present `NaN` passes the `!= null` test and clamps
to 0. -/
def alphaByte (parts : List (Option ℕ)) : ℕ :=
  match parts[3]? with
  | none => 255
  | some o => clampByte o

/-- The per-pixel loop of one variant (previous generation, lines 195-220),
iterating pixel numbers `k` (byte offset `4k`).  Errors from `hexToRgba`
abort immediately. -/
def pixelLoop (palette : VSpec0) (statics : Option (List String)) (src : List ℕ) :
    List ℕ → List ℕ × List String → Except SwapError (List ℕ × List String)
  | [], st => .ok st
  | k :: ks, (d, miss) =>
    let i := 4 * k
    let r := src.getD i 0
    let g := src.getD (i + 1) 0
    let b := src.getD (i + 2) 0
    let a := src.getD (i + 3) 0
    let hx := rgbaToHex r g b (some a)
    let newColor : Option Variant0 :=
      match palette with
      | .hue q => some (.hueV q)
      | .table es => mapGet es hx
    match newColor with
    | some (.hueV n) =>
      if staticsHas statics hx then pixelLoop palette statics src ks (setPix d i r g b a, miss)
      else
        match hexToRgba (applyHue r g b a n) with
        | .error e => .error e
        | .ok parts =>
          pixelLoop palette statics src ks
            (setPix d i (chanByte parts 0) (chanByte parts 1) (chanByte parts 2) (alphaByte parts), miss)
    | some (.colorV s) =>
      if s = "" then
        if statics = none ∨ staticsHas statics hx then
          pixelLoop palette statics src ks (setPix d i r g b a, miss)
        else pixelLoop palette statics src ks (d, if hx ∈ miss then miss else miss ++ [hx])
      else
        match hexToRgba s with
        | .error e => .error e
        | .ok parts =>
          pixelLoop palette statics src ks
            (setPix d i (chanByte parts 0) (chanByte parts 1) (chanByte parts 2) (alphaByte parts), miss)
    | none =>
      if statics = none ∨ staticsHas statics hx then
        pixelLoop palette statics src ks (setPix d i r g b a, miss)
      else pixelLoop palette statics src ks (d, if hx ∈ miss then miss else miss ++ [hx])

/-- The prior image read back at the source dimensions, at byte granularity
(canvas `getImageData` pads with transparent black). -/
def getImageDataBytes (w h : ℕ) (p : Prior) : PS.ImageDataM :=
  ⟨w, h,
   (List.range h).flatMap (fun y =>
     (List.range w).flatMap (fun x =>
       if x < p.width ∧ y < p.height then
         [p.data.getD (4 * (y * p.width + x)) 0, p.data.getD (4 * (y * p.width + x) + 1) 0,
          p.data.getD (4 * (y * p.width + x) + 2) 0, p.data.getD (4 * (y * p.width + x) + 3) 0]
       else [0, 0, 0, 0]))⟩

/-- The variant loop of the previous generation (lines 181-237): per
variant, scan all pixels, then the per-variant missing check, then the
prior-image comparison (`equals` is verbatim identical in both
generations, so `PS.equals` is reused). -/
def variantLoop (statics : Option (List String)) (images : Option (List (String × Prior)))
    (ignoreMissing : Bool) (w h : ℕ) (src : List ℕ) :
    List (String × VSpec0) → Except SwapError (List (String × List ℕ))
  | [] => .ok []
  | (name, palette) :: rest =>
    match pixelLoop palette statics src (List.range (w * h)) (List.replicate (w * h * 4) 0, []) with
    | .error e => .error e
    | .ok (d, miss) =>
      if ignoreMissing = false ∧ miss ≠ [] then .error (.missingMapping miss name)
      else
        let existing : Option Prior := match images with
          | none => none
          | some m => mapGet m name
        let keep : Bool := match existing with
          | none => true
          | some p => !(PS.equals ⟨w, h, d⟩ (getImageDataBytes w h p))
        match variantLoop statics images ignoreMissing w h src rest with
        | .error e => .error e
        | .ok restRes => .ok ((if keep then [(name, d)] else []) ++ restRes)

/-- `paletteSwap` of the previous generation (lines 165-239).  The source
image arrives as its raw RGBA byte array. -/
def paletteSwap (w h : ℕ) (src : List ℕ) (variants : List (String × VSpec0))
    (staticColors : Option (List String)) (images : Option (List (String × Prior)))
    (ignoreMissing : Bool) : Except SwapError (List (String × List ℕ)) :=
  variantLoop staticColors images ignoreMissing w h src variants

end PS0

/-- Specification-side reading of "the string contains a whole byte-pair":
two adjacent word characters occur somewhere. -/
def hasAdjacentWordPair (l : List Char) : Prop :=
  ∃ i, i + 1 < l.length ∧ PS0.isWordChar (l.getD i ' ') ∧ PS0.isWordChar (l.getD (i + 1) ' ')

instance hasAdjacentWordPairDec (l : List Char) : Decidable (hasAdjacentWordPair l) := by
  unfold hasAdjacentWordPair
  exact decidable_of_iff
    (∃ i < l.length, i + 1 < l.length ∧ PS0.isWordChar (l.getD i ' ') ∧ PS0.isWordChar (l.getD (i + 1) ' '))
    (by
      constructor
      · rintro ⟨i, _, hi⟩; exact ⟨i, hi⟩
      · rintro ⟨i, hi⟩; exact ⟨i, by omega, hi⟩)

instance exceptDecEq {e a : Type} [DecidableEq e] [DecidableEq a] : DecidableEq (Except e a)
  | .error x, .error y =>
    if h : x = y then .isTrue (by rw [h]) else .isFalse (fun hc => by cases hc; exact h rfl)
  | .error _, .ok _ => .isFalse (fun hc => by cases hc)
  | .ok _, .error _ => .isFalse (fun hc => by cases hc)
  | .ok x, .ok y =>
    if h : x = y then .isTrue (by rw [h]) else .isFalse (fun hc => by cases hc; exact h rfl)

namespace PS

lemma processVariants_fst_length (statics : Option (List ℕ)) (pal : ℕ → ℕ → Option ℕ)
    (idx oc : ℕ) :
    ∀ (i0 : ℕ) (specs : List VSpec) (names : List String) (bufs : List (List ℕ)),
      bufs.length = specs.length → names.length = specs.length →
      (processVariants statics pal idx oc i0 specs names bufs).1.length = bufs.length := by
  intro i0 specs
  induction specs generalizing i0 with
  | nil => intro names bufs _ _; simp [processVariants]
  | cons s rest ih =>
    intro names bufs hb hn
    cases names with
    | nil => simp at hn
    | cons nm nms =>
      cases bufs with
      | nil => simp at hb
      | cons b bs =>
        simp only [processVariants, List.length_cons]
        rw [ih (i0 + 1) nms bs (by simpa using hb) (by simpa using hn)]

lemma processVariants_fst_getD (statics : Option (List ℕ)) (pal : ℕ → ℕ → Option ℕ)
    (idx oc : ℕ) :
    ∀ (i0 : ℕ) (specs : List VSpec) (names : List String) (bufs : List (List ℕ)) (j : ℕ),
      bufs.length = specs.length → names.length = specs.length → j < specs.length →
      (processVariants statics pal idx oc i0 specs names bufs).1.getD j []
        = match variantWrite statics pal (specs.getD j (.table [])) (i0 + j) oc with
          | some v => (bufs.getD j []).set idx v
          | none => bufs.getD j [] := by
  intro i0 specs
  induction specs generalizing i0 with
  | nil => intro names bufs j _ _ hj; simp at hj
  | cons s rest ih =>
    intro names bufs j hb hn hj
    cases names with
    | nil => simp at hn
    | cons nm nms =>
      cases bufs with
      | nil => simp at hb
      | cons b bs =>
        cases j with
        | zero =>
          simp only [processVariants, List.getD_cons_zero, Nat.add_zero]
          cases variantWrite statics pal s i0 oc <;> simp
        | succ j =>
          simp only [processVariants, List.getD_cons_succ]
          have := ih (i0 + 1) nms bs j (by simpa using hb) (by simpa using hn)
            (by simpa using hj)
          rw [show i0 + 1 + j = i0 + (j + 1) by omega] at this
          exact this

lemma tableFallback_eq_none (statics : Option (List ℕ)) (pal : ℕ → ℕ → Option ℕ)
    (a color oc i : ℕ)
    (h : tableFallback statics pal a color oc i = none) : ∃ l, statics = some l := by
  cases statics with
  | some l => exact ⟨l, rfl⟩
  | none =>
    exfalso
    unfold tableFallback at h
    cases hp : pal color i with
    | none => rw [hp] at h; simp at h
    | some v =>
      rw [hp] at h
      by_cases h0 : v = 0 <;> simp [h0] at h

lemma variantWrite_eq_none (statics : Option (List ℕ)) (pal : ℕ → ℕ → Option ℕ)
    (spec : VSpec) (i oc : ℕ)
    (h : variantWrite statics pal spec i oc = none) :
    ∃ l, statics = some l ∧ (oc &&& 0xffffff) ∉ l := by
  cases statics with
  | some l =>
    by_cases hmem : (oc &&& 0xffffff) ∈ l
    · exfalso; simp [variantWrite, hmem] at h
    · exact ⟨l, rfl, hmem⟩
  | none =>
    exfalso
    cases spec with
    | table es =>
      simp only [variantWrite] at h
      rcases tableFallback_eq_none _ _ _ _ _ _ (by simpa using h) with ⟨l, hl⟩
      simp at hl
    | hue q =>
      by_cases hq : q = 0
      · simp only [variantWrite, hq, ne_eq, not_true_eq_false, if_false] at h
        rcases tableFallback_eq_none _ _ _ _ _ _ (by simpa using h) with ⟨l, hl⟩
        simp at hl
      · simp [variantWrite, hq] at h

lemma processVariants_snd_mem (statics : Option (List ℕ)) (pal : ℕ → ℕ → Option ℕ)
    (idx oc : ℕ) :
    ∀ (i0 : ℕ) (specs : List VSpec) (names : List String) (bufs : List (List ℕ)),
      ∀ p ∈ (processVariants statics pal idx oc i0 specs names bufs).2,
        p.2 = oc &&& 0xffffff ∧ ∃ l, statics = some l ∧ (oc &&& 0xffffff) ∉ l := by
  intro i0 specs
  induction specs generalizing i0 with
  | nil => intro names bufs p hp; simp [processVariants] at hp
  | cons s rest ih =>
    intro names bufs p hp
    cases names with
    | nil => simp [processVariants] at hp
    | cons nm nms =>
      cases bufs with
      | nil => simp [processVariants] at hp
      | cons b bs =>
        simp only [processVariants] at hp
        rcases hv : variantWrite statics pal s i0 oc with _ | v
        · rw [hv] at hp
          simp only [List.mem_append] at hp
          rcases hp with hp | hp
          · simp only [List.mem_singleton] at hp
            subst hp
            exact ⟨rfl, variantWrite_eq_none _ _ _ _ _ hv⟩
          · exact ih (i0 + 1) nms bs p hp
        · rw [hv] at hp
          simp only [List.nil_append] at hp
          exact ih (i0 + 1) nms bs p hp

lemma getD_set_self {l : List ℕ} {i : ℕ} {v : ℕ} (h : i < l.length) :
    (l.set i v).getD i 0 = v := by
  rw [List.getD_eq_getElem?_getD, List.getElem?_set_self h]; rfl

lemma getD_set_ne {l : List ℕ} {i j : ℕ} {v : ℕ} (h : i ≠ j) :
    (l.set i v).getD j 0 = l.getD j 0 := by
  rw [List.getD_eq_getElem?_getD, List.getElem?_set_ne h, ← List.getD_eq_getElem?_getD]

lemma processPixel_def (ctx : Ctx) (j : ℕ) (st : SwapState) :
    processPixel ctx j st =
      if (ctx.src.getD j 0 >>> 24) &&& 0xff = 0 then st
      else ⟨(processVariants ctx.statics ctx.pal j (ctx.src.getD j 0) 0 ctx.specs ctx.names st.buffers).1,
            st.missing ++ (processVariants ctx.statics ctx.pal j (ctx.src.getD j 0) 0 ctx.specs ctx.names st.buffers).2⟩ := rfl

lemma pixWrite_def (ctx : Ctx) (i idx : ℕ) :
    pixWrite ctx i idx =
      if (ctx.src.getD idx 0 >>> 24) &&& 0xff = 0 then none
      else variantWrite ctx.statics ctx.pal (ctx.specs.getD i (.table [])) i (ctx.src.getD idx 0) := rfl

lemma processPixel_buffers_length (ctx : Ctx) (hn : ctx.names.length = ctx.specs.length)
    (j : ℕ) (st : SwapState) (hb : st.buffers.length = ctx.specs.length) :
    (processPixel ctx j st).buffers.length = st.buffers.length := by
  rw [processPixel_def]
  by_cases ha : (ctx.src.getD j 0 >>> 24) &&& 0xff = 0
  · rw [if_pos ha]
  · rw [if_neg ha]
    exact processVariants_fst_length _ _ _ _ 0 _ _ _ (by rw [hb]) hn

lemma processPixel_buffers_getD (ctx : Ctx) (hn : ctx.names.length = ctx.specs.length)
    (j : ℕ) (st : SwapState) (hb : st.buffers.length = ctx.specs.length)
    (i : ℕ) (hi : i < ctx.specs.length) :
    (processPixel ctx j st).buffers.getD i []
      = match pixWrite ctx i j with
        | some v => (st.buffers.getD i []).set j v
        | none => st.buffers.getD i [] := by
  rw [processPixel_def, pixWrite_def]
  by_cases ha : (ctx.src.getD j 0 >>> 24) &&& 0xff = 0
  · rw [if_pos ha, if_pos ha]
  · rw [if_neg ha, if_neg ha]
    have := processVariants_fst_getD ctx.statics ctx.pal j (ctx.src.getD j 0) 0
      ctx.specs ctx.names st.buffers i (by rw [hb]) hn hi
    rw [Nat.zero_add] at this
    exact this

lemma processPixel_missing_mem (ctx : Ctx) (j : ℕ) (st : SwapState)
    (p : String × ℕ) (hp : p ∈ (processPixel ctx j st).missing) :
    p ∈ st.missing ∨ (∃ l, ctx.statics = some l ∧ p.2 ∉ l) := by
  rw [processPixel_def] at hp
  by_cases ha : (ctx.src.getD j 0 >>> 24) &&& 0xff = 0
  · rw [if_pos ha] at hp
    exact Or.inl hp
  · rw [if_neg ha] at hp
    simp only [List.mem_append] at hp
    rcases hp with hp | hp
    · exact Or.inl hp
    · rcases processVariants_snd_mem ctx.statics ctx.pal j (ctx.src.getD j 0) 0
        ctx.specs ctx.names st.buffers p hp with ⟨hpc, l, hl, hnm⟩
      exact Or.inr ⟨l, hl, by rw [hpc]; exact hnm⟩

lemma processPixel_wf (ctx : Ctx) (hn : ctx.names.length = ctx.specs.length)
    (j : ℕ) (st : SwapState) (h : stWF ctx st) : stWF ctx (processPixel ctx j st) := by
  refine ⟨by rw [processPixel_buffers_length ctx hn j st h.1]; exact h.1, ?_⟩
  intro i hi
  rw [processPixel_buffers_getD ctx hn j st h.1 i hi]
  cases pixWrite ctx i j with
  | none => exact h.2 i hi
  | some v => simp only [List.length_set]; exact h.2 i hi

lemma foldPixels_wf (ctx : Ctx) (hn : ctx.names.length = ctx.specs.length)
    (l : List ℕ) (st : SwapState) (h : stWF ctx st) : stWF ctx (foldPixels ctx l st) := by
  induction l generalizing st with
  | nil => exact h
  | cons j rest ih => exact ih _ (processPixel_wf ctx hn j st h)

lemma foldPixels_buffers_getD (ctx : Ctx) (hn : ctx.names.length = ctx.specs.length)
    (l : List ℕ) (st : SwapState) (hwf : stWF ctx st)
    (i idx : ℕ) (hi : i < ctx.specs.length) (hidx : idx < ctx.width * ctx.height) :
    ((foldPixels ctx l st).buffers.getD i []).getD idx 0
      = match pixWrite ctx i idx with
        | some v => if idx ∈ l then v else (st.buffers.getD i []).getD idx 0
        | none => (st.buffers.getD i []).getD idx 0 := by
  induction l generalizing st with
  | nil => cases pixWrite ctx i idx <;> simp [foldPixels]
  | cons j rest ih =>
    have hwf1 := processPixel_wf ctx hn j st hwf
    have hstep := processPixel_buffers_getD ctx hn j st hwf.1 i hi
    have hfold : foldPixels ctx (j :: rest) st = foldPixels ctx rest (processPixel ctx j st) := rfl
    rw [hfold, ih (processPixel ctx j st) hwf1, hstep]
    by_cases hj : j = idx
    · subst hj
      have hlen : j < (st.buffers.getD i []).length := by rw [hwf.2 i hi]; exact hidx
      cases hpw : pixWrite ctx i j with
      | none => rfl
      | some v =>
        simp only [hpw]
        rw [getD_set_self hlen, ite_self, if_pos (List.mem_cons_self j rest)]
    · have hne : (idx ∈ j :: rest) ↔ (idx ∈ rest) := by
        rw [List.mem_cons]
        constructor
        · rintro (h | h)
          · exact absurd h.symm hj
          · exact h
        · exact Or.inr
      cases hpj : pixWrite ctx i j with
      | none =>
        simp only [hpj]
        cases hpw : pixWrite ctx i idx with
        | none => rfl
        | some v => simp only [hpw, hne]
      | some w =>
        simp only [hpj]
        rw [getD_set_ne hj]
        cases hpw : pixWrite ctx i idx with
        | none => rfl
        | some v => simp only [hpw, hne]

lemma processRow_eq_foldPixels (ctx : Ctx) (y : ℕ) (st : SwapState) :
    processRow ctx y st
      = foldPixels ctx ((List.range ctx.width).map (fun x => y * ctx.width + x)) st := by
  unfold processRow foldPixels
  rw [List.foldl_map]

lemma stateAfter_eq_foldPixels (ctx : Ctx) (k : ℕ) :
    stateAfter ctx k = foldPixels ctx (pixelOrder ctx k) (initState ctx) := by
  induction k with
  | zero => rfl
  | succ k ih =>
    simp only [stateAfter, pixelOrder, foldPixels] at ih ⊢
    rw [List.range_succ, List.foldl_append, List.flatMap_append, List.foldl_append, ih]
    simp only [List.foldl_cons, List.foldl_nil, List.flatMap_cons, List.flatMap_nil,
      List.append_nil]
    exact processRow_eq_foldPixels ctx k _

lemma initState_wf (ctx : Ctx) : stWF ctx (initState ctx) := by
  constructor
  · simp [initState]
  · intro i hi
    unfold initState
    rw [List.getD_eq_getElem?_getD, List.getElem?_map, List.getElem?_eq_getElem hi]
    simp

lemma mem_pixelOrder_of_lt (ctx : Ctx) (idx : ℕ) (h : idx < ctx.width * ctx.height) :
    idx ∈ pixelOrder ctx ctx.height := by
  have hw : 0 < ctx.width := by
    rcases Nat.eq_zero_or_pos ctx.width with h0 | h0
    · rw [h0] at h; simp at h
    · exact h0
  simp only [pixelOrder, List.mem_flatMap, List.mem_map, List.mem_range]
  refine ⟨idx / ctx.width, ?_, idx % ctx.width, Nat.mod_lt _ hw, ?_⟩
  · rw [Nat.div_lt_iff_lt_mul hw]
    calc idx < ctx.width * ctx.height := h
    _ = ctx.height * ctx.width := Nat.mul_comm _ _
  · rw [Nat.mul_comm]
    exact Nat.div_add_mod idx ctx.width

lemma stateAfter_buffers_getD (ctx : Ctx) (hn : ctx.names.length = ctx.specs.length)
    (i idx : ℕ) (hi : i < ctx.specs.length) (hidx : idx < ctx.width * ctx.height) :
    ((stateAfter ctx ctx.height).buffers.getD i []).getD idx 0
      = match pixWrite ctx i idx with
        | some v => v
        | none => 0 := by
  rw [stateAfter_eq_foldPixels]
  rw [foldPixels_buffers_getD ctx hn _ _ (initState_wf ctx) i idx hi hidx]
  have h0 : (SwapState.buffers (initState ctx)).getD i [] = List.replicate (ctx.width * ctx.height) 0 := by
    unfold initState
    rw [List.getD_eq_getElem?_getD, List.getElem?_map, List.getElem?_eq_getElem hi]
    rfl
  rw [h0]
  cases hpw : pixWrite ctx i idx with
  | none =>
    simp only [hpw]
    simp
  | some v =>
    simp only [hpw]
    rw [if_pos (mem_pixelOrder_of_lt ctx idx hidx)]

lemma foldPixels_missing_mem (ctx : Ctx) (l : List ℕ) (st : SwapState)
    (p : String × ℕ) (hp : p ∈ (foldPixels ctx l st).missing) :
    p ∈ st.missing ∨ (∃ s, ctx.statics = some s ∧ p.2 ∉ s) := by
  induction l generalizing st with
  | nil => exact Or.inl hp
  | cons j rest ih =>
    have hfold : foldPixels ctx (j :: rest) st = foldPixels ctx rest (processPixel ctx j st) := rfl
    rw [hfold] at hp
    rcases ih (processPixel ctx j st) hp with hin | h
    · exact processPixel_missing_mem ctx j st p hin
    · exact Or.inr h

lemma stateAfter_missing_mem (ctx : Ctx) (k : ℕ) (p : String × ℕ)
    (hp : p ∈ (stateAfter ctx k).missing) :
    ∃ s, ctx.statics = some s ∧ p.2 ∉ s := by
  rw [stateAfter_eq_foldPixels] at hp
  rcases foldPixels_missing_mem ctx _ _ p hp with hin | h
  · simp [initState] at hin
  · exact h

lemma insertFoldl_ne (i : ℕ) (es : List (String × String)) (pal : ℕ → ℕ → Option ℕ)
    (color j : ℕ) (hj : j ≠ i) :
    (es.foldl (fun p kv => insertEntry i kv p) pal) color j = pal color j := by
  induction es generalizing pal with
  | nil => rfl
  | cons e rest ih =>
    rw [List.foldl_cons, ih]
    unfold insertEntry
    rw [if_neg (by rintro ⟨-, h⟩; exact hj h)]

lemma insertFoldl_self (i : ℕ) (es : List (String × String)) (pal : ℕ → ℕ → Option ℕ)
    (color : ℕ) :
    (es.foldl (fun p kv => insertEntry i kv p) pal) color i
      = match tableLookup es color with
        | some v => some v
        | none => pal color i := by
  induction es generalizing pal with
  | nil => rfl
  | cons e rest ih =>
    rw [List.foldl_cons, ih]
    unfold tableLookup
    rw [List.reverse_cons, List.find?_append]
    cases hf : (rest.reverse.find? (fun kv => hexToInt32 kv.1 = color)) with
    | some kv => simp [hf]
    | none =>
      simp only [hf, Option.none_orElse, List.find?_singleton]
      unfold insertEntry
      by_cases hk : hexToInt32 e.1 = color
      · rw [if_pos ⟨hk.symm, rfl⟩]
        simp [hk]
      · rw [if_neg (by rintro ⟨h, -⟩; exact hk h.symm)]
        simp [hk]

lemma compileGo_slot (i0 : ℕ) (specs : List VSpec) (pal : ℕ → ℕ → Option ℕ)
    (color j : ℕ) (hj : j < i0) :
    compileGo i0 specs pal color j = pal color j := by
  induction specs generalizing i0 pal with
  | nil => rfl
  | cons s rest ih =>
    cases s with
    | hue q => exact ih (i0 + 1) pal (by omega)
    | table es =>
      rw [show compileGo i0 (.table es :: rest) pal
          = compileGo (i0 + 1) rest (es.foldl (fun p kv => insertEntry i0 kv p) pal) from rfl]
      rw [ih (i0 + 1) _ (by omega)]
      exact insertFoldl_ne i0 es pal color j (by omega)

lemma compileGo_at (i0 : ℕ) (specs : List VSpec) (pal : ℕ → ℕ → Option ℕ)
    (color k : ℕ) :
    ∀ (hk : k < specs.length),
      compileGo i0 specs pal color (i0 + k)
        = match specs.getD k (.table []) with
          | .hue _ => pal color (i0 + k)
          | .table es =>
            match tableLookup es color with
            | some v => some v
            | none => pal color (i0 + k) := by
  induction specs generalizing i0 pal k with
  | nil => intro hk; simp at hk
  | cons s rest ih =>
    intro hk
    cases k with
    | zero =>
      cases s with
      | hue q =>
        simp only [List.getD_cons_zero, Nat.add_zero]
        rw [show compileGo i0 (.hue q :: rest) pal = compileGo (i0 + 1) rest pal from rfl]
        exact compileGo_slot (i0 + 1) rest pal color i0 (by omega)
      | table es =>
        simp only [List.getD_cons_zero, Nat.add_zero]
        rw [show compileGo i0 (.table es :: rest) pal
            = compileGo (i0 + 1) rest (es.foldl (fun p kv => insertEntry i0 kv p) pal) from rfl]
        rw [compileGo_slot (i0 + 1) rest _ color i0 (by omega)]
        exact insertFoldl_self i0 es pal color
    | succ k =>
      have hk2 : k < rest.length := by simpa using hk
      have harr : i0 + (k + 1) = (i0 + 1) + k := by omega
      cases s with
      | hue q =>
        simp only [List.getD_cons_succ]
        rw [show compileGo i0 (.hue q :: rest) pal = compileGo (i0 + 1) rest pal from rfl]
        rw [harr]
        exact ih (i0 + 1) pal k hk2
      | table es =>
        simp only [List.getD_cons_succ]
        rw [show compileGo i0 (.table es :: rest) pal
            = compileGo (i0 + 1) rest (es.foldl (fun p kv => insertEntry i0 kv p) pal) from rfl]
        rw [harr, ih (i0 + 1) _ k hk2]
        have hne := insertFoldl_ne i0 es pal color ((i0 + 1) + k) (by omega)
        cases specs_k : rest.getD k (.table []) with
        | hue q2 => simp only [specs_k, hne]
        | table es2 => simp only [specs_k, hne]

lemma compilePalettes_hue (specs : List VSpec) (i : ℕ) (q : ℚ)
    (hspec : specs.getD i (.table []) = .hue q) (hi : i < specs.length) (color : ℕ) :
    compilePalettes specs color i = none := by
  unfold compilePalettes
  have := compileGo_at 0 specs (fun _ _ => none) color i hi
  rw [Nat.zero_add] at this
  rw [this, hspec]

lemma compilePalettes_table (specs : List VSpec) (i : ℕ) (es : List (String × String))
    (hspec : specs.getD i (.table []) = .table es) (hi : i < specs.length) (color : ℕ) :
    compilePalettes specs color i = tableLookup es color := by
  unfold compilePalettes
  have := compileGo_at 0 specs (fun _ _ => none) color i hi
  rw [Nat.zero_add] at this
  rw [this, hspec]
  cases htl : tableLookup es color <;> simp [htl]

lemma variantWrite_static (statics : Option (List ℕ)) (pal : ℕ → ℕ → Option ℕ)
    (spec : VSpec) (i oc : ℕ) (l : List ℕ)
    (hs : statics = some l) (hmem : (oc &&& 0xffffff) ∈ l) :
    variantWrite statics pal spec i oc = some oc := by
  subst hs
  simp [variantWrite, hmem]

lemma variantWrite_nonstatic (statics : Option (List ℕ)) (pal : ℕ → ℕ → Option ℕ)
    (spec : VSpec) (i oc : ℕ)
    (hns : ∀ l, statics = some l → (oc &&& 0xffffff) ∉ l) :
    variantWrite statics pal spec i oc
      = (match spec with
         | .hue h =>
           if h ≠ 0 then some ((((oc >>> 24) &&& 0xff) <<< 24) ||| applyHue (int32ToRgb (oc &&& 0xffffff)) h)
           else tableFallback statics pal ((oc >>> 24) &&& 0xff) (oc &&& 0xffffff) oc i
         | .table _ => tableFallback statics pal ((oc >>> 24) &&& 0xff) (oc &&& 0xffffff) oc i) := by
  cases statics with
  | none =>
    cases spec with
    | hue q => simp [variantWrite]
    | table es => simp [variantWrite]
  | some l =>
    have := hns l rfl
    cases spec with
    | hue q => simp [variantWrite, this]
    | table es => simp [variantWrite, this]

end PS

/-- C5: for every non-transparent pixel whose packed RGB key (alpha
stripped) is in the supplied static color set, every variant's computed
output holds the original pixel word unchanged, and no missing pair is
ever recorded for that color. -/
theorem C5_static_protection (width height : ℕ) (src : List ℕ)
    (vars : List (String × PS.VSpec)) (staticHexes : List String)
    (idx : ℕ) (hidx : idx < width * height)
    (ha : (src.getD idx 0 >>> 24) &&& 0xff ≠ 0)
    (hmem : (src.getD idx 0 &&& 0xffffff) ∈ staticHexes.map PS.hexToInt32)
    (i : ℕ) (hi : i < vars.length) :
    ((PS.stateAfter (PS.mkCtx width height src vars (some staticHexes)) height).buffers.getD i []).getD idx 0
        = src.getD idx 0
    ∧ ∀ p ∈ (PS.stateAfter (PS.mkCtx width height src vars (some staticHexes)) height).missing,
        p.2 ≠ (src.getD idx 0 &&& 0xffffff) := by
  have hn : (PS.mkCtx width height src vars (some staticHexes)).names.length
      = (PS.mkCtx width height src vars (some staticHexes)).specs.length := by
    simp [PS.mkCtx]
  have hi' : i < (PS.mkCtx width height src vars (some staticHexes)).specs.length := by
    simpa [PS.mkCtx] using hi
  have hmain := PS.stateAfter_buffers_getD (PS.mkCtx width height src vars (some staticHexes))
    hn i idx hi' hidx
  have hpw : PS.pixWrite (PS.mkCtx width height src vars (some staticHexes)) i idx
      = some (src.getD idx 0) := by
    rw [PS.pixWrite_def]
    have hsrc : (PS.mkCtx width height src vars (some staticHexes)).src = src := rfl
    rw [hsrc, if_neg ha]
    exact PS.variantWrite_static _ _ _ _ _ (staticHexes.map PS.hexToInt32) rfl hmem
  constructor
  · have hgoal : ((PS.stateAfter (PS.mkCtx width height src vars (some staticHexes)) height).buffers.getD i []).getD idx 0
        = match PS.pixWrite (PS.mkCtx width height src vars (some staticHexes)) i idx with
          | some v => v
          | none => 0 := hmain
    rw [hgoal, hpw]
  · intro p hp
    have hp' : p ∈ (PS.stateAfter (PS.mkCtx width height src vars (some staticHexes))
        ((PS.mkCtx width height src vars (some staticHexes)).height)).missing := hp
    rcases PS.stateAfter_missing_mem _ _ p hp' with ⟨s, hs, hns⟩
    have hs' : s = staticHexes.map PS.hexToInt32 := by
      have : (PS.mkCtx width height src vars (some staticHexes)).statics
          = some (staticHexes.map PS.hexToInt32) := rfl
      rw [this] at hs
      exact (Option.some_injective _ hs).symm
    subst hs'
    intro heq
    rw [heq] at hns
    exact hns hmem

/-- Witness for C5 at a concrete input: a 1-by-1 image whose pixel's color
is listed static, with one table variant. -/
theorem C5_witness :
    ((PS.stateAfter (PS.mkCtx 1 1 [0xff000003] [("a", .table [])] (some ["#030000"])) 1).buffers.getD 0 []).getD 0 0
        = ([0xff000003] : List ℕ).getD 0 0
    ∧ ∀ p ∈ (PS.stateAfter (PS.mkCtx 1 1 [0xff000003] [("a", .table [])] (some ["#030000"])) 1).missing,
        p.2 ≠ (([0xff000003] : List ℕ).getD 0 0 &&& 0xffffff) :=
  C5_static_protection 1 1 [0xff000003] [("a", .table [])] ["#030000"] 0 (by decide)
    (by decide) (by decide) 0 (by decide)

/-- C4 (amended): a fully transparent source pixel is skipped entirely:
its output word stays at the zero initialization (transparent black, not
in general the input pixel bytes) in every variant, and the pixel
contributes nothing to the scan state (in particular no missing pair). -/
theorem C4_transparent_skip (width height : ℕ) (src : List ℕ)
    (vars : List (String × PS.VSpec)) (statics : Option (List String))
    (idx : ℕ) (hidx : idx < width * height)
    (ha : (src.getD idx 0 >>> 24) &&& 0xff = 0)
    (i : ℕ) (hi : i < vars.length) :
    ((PS.stateAfter (PS.mkCtx width height src vars statics) height).buffers.getD i []).getD idx 0 = 0
    ∧ ∀ st, PS.processPixel (PS.mkCtx width height src vars statics) idx st = st := by
  have hn : (PS.mkCtx width height src vars statics).names.length
      = (PS.mkCtx width height src vars statics).specs.length := by
    simp [PS.mkCtx]
  have hi' : i < (PS.mkCtx width height src vars statics).specs.length := by
    simpa [PS.mkCtx] using hi
  have hmain := PS.stateAfter_buffers_getD (PS.mkCtx width height src vars statics) hn i idx hi' hidx
  have hpw : PS.pixWrite (PS.mkCtx width height src vars statics) i idx = none := by
    rw [PS.pixWrite_def]
    exact if_pos ha
  constructor
  · have hgoal : ((PS.stateAfter (PS.mkCtx width height src vars statics) height).buffers.getD i []).getD idx 0
        = match PS.pixWrite (PS.mkCtx width height src vars statics) i idx with
          | some v => v
          | none => 0 := hmain
    rw [hgoal, hpw]
  · intro st
    rw [PS.processPixel_def]
    exact if_pos ha

/-- Witness for C4 at a concrete input: a transparent pixel with nonzero
red byte. -/
theorem C4_witness :
    ((PS.stateAfter (PS.mkCtx 1 1 [1] [("v", .table [])] none) 1).buffers.getD 0 []).getD 0 0 = 0
    ∧ ∀ st, PS.processPixel (PS.mkCtx 1 1 [1] [("v", .table [])] none) 0 st = st :=
  C4_transparent_skip 1 1 [1] [("v", .table [])] none 0 (by decide) (by decide) 0 (by decide)

/-- C3: for a variant whose spec is a uniform hue `H`, every
non-transparent, non-static pixel is written as the hue rotation of its
color with the original alpha when `H` is non-zero; with `H = 0` the hue
test is falsy and no rotation happens at all — the pixel falls through to
the passthrough (no static set supplied) or missing (static set supplied)
branches, so "rotate to hue 0" is unreachable through the uniform-hue
form. -/
theorem C3_uniform_hue (width height : ℕ) (src : List ℕ)
    (vars : List (String × PS.VSpec)) (statics : Option (List String))
    (idx : ℕ) (hidx : idx < width * height)
    (ha : (src.getD idx 0 >>> 24) &&& 0xff ≠ 0)
    (hns : ∀ l, statics = some l → (src.getD idx 0 &&& 0xffffff) ∉ l.map PS.hexToInt32)
    (i : ℕ) (hi : i < vars.length) (H : ℚ)
    (hspec : (PS.mkCtx width height src vars statics).specs.getD i (.table []) = .hue H) :
    (H ≠ 0 →
      ((PS.stateAfter (PS.mkCtx width height src vars statics) height).buffers.getD i []).getD idx 0
        = (((src.getD idx 0 >>> 24) &&& 0xff) <<< 24)
            ||| PS.applyHue (PS.int32ToRgb (src.getD idx 0 &&& 0xffffff)) H)
    ∧ (H = 0 →
      ((PS.stateAfter (PS.mkCtx width height src vars statics) height).buffers.getD i []).getD idx 0
        = match statics with
          | none => src.getD idx 0
          | some _ => 0) := by
  have hn : (PS.mkCtx width height src vars statics).names.length
      = (PS.mkCtx width height src vars statics).specs.length := by
    simp [PS.mkCtx]
  have hi' : i < (PS.mkCtx width height src vars statics).specs.length := by
    simpa [PS.mkCtx] using hi
  have hmain := PS.stateAfter_buffers_getD (PS.mkCtx width height src vars statics) hn i idx hi' hidx
  have hgoal : ((PS.stateAfter (PS.mkCtx width height src vars statics) height).buffers.getD i []).getD idx 0
      = match PS.pixWrite (PS.mkCtx width height src vars statics) i idx with
        | some v => v
        | none => 0 := hmain
  have hns' : ∀ l, (PS.mkCtx width height src vars statics).statics = some l
      → ((src.getD idx 0 &&& 0xffffff) ∉ l) := by
    intro l hl
    cases statics with
    | none => exact absurd hl (by simp [PS.mkCtx])
    | some sl =>
      have : (PS.mkCtx width height src vars (some sl)).statics = some (sl.map PS.hexToInt32) := rfl
      rw [this] at hl
      rw [← Option.some_injective _ hl]
      exact hns sl rfl
  have hvw := PS.variantWrite_nonstatic (PS.mkCtx width height src vars statics).statics
    (PS.mkCtx width height src vars statics).pal
    ((PS.mkCtx width height src vars statics).specs.getD i (.table [])) i (src.getD idx 0) hns'
  rw [hspec] at hvw
  have hpal : (PS.mkCtx width height src vars statics).pal (src.getD idx 0 &&& 0xffffff) i = none :=
    PS.compilePalettes_hue _ i H hspec hi' _
  have hpwdef : PS.pixWrite (PS.mkCtx width height src vars statics) i idx
      = PS.variantWrite (PS.mkCtx width height src vars statics).statics
          (PS.mkCtx width height src vars statics).pal
          ((PS.mkCtx width height src vars statics).specs.getD i (.table [])) i (src.getD idx 0) := by
    rw [PS.pixWrite_def]
    exact if_neg ha
  constructor
  · intro hH
    rw [hgoal, hpwdef, hspec, hvw]
    simp only [hH, ne_eq, not_false_eq_true, if_true]
  · intro hH
    subst hH
    rw [hgoal, hpwdef, hspec, hvw]
    simp only [ne_eq, not_true_eq_false, if_false]
    unfold PS.tableFallback
    rw [hpal]
    cases statics with
    | none =>
      have : (PS.mkCtx width height src vars none).statics = none := rfl
      rw [this]
    | some sl =>
      have : (PS.mkCtx width height src vars (some sl)).statics = some (sl.map PS.hexToInt32) := rfl
      rw [this]

/-- Witness for C3 at concrete inputs: a uniform hue-120 variant on an
opaque pixel (and the same image with a uniform hue-0 variant). -/
theorem C3_witness :
    ((120 : ℚ) ≠ 0 →
      ((PS.stateAfter (PS.mkCtx 1 1 [0xff000001] [("v", .hue 120)] none) 1).buffers.getD 0 []).getD 0 0
        = (((([0xff000001] : List ℕ).getD 0 0 >>> 24) &&& 0xff) <<< 24)
            ||| PS.applyHue (PS.int32ToRgb (([0xff000001] : List ℕ).getD 0 0 &&& 0xffffff)) 120)
    ∧ ((120 : ℚ) = 0 →
      ((PS.stateAfter (PS.mkCtx 1 1 [0xff000001] [("v", .hue 120)] none) 1).buffers.getD 0 []).getD 0 0
        = match (none : Option (List String)) with
          | none => ([0xff000001] : List ℕ).getD 0 0
          | some _ => 0) :=
  C3_uniform_hue 1 1 [0xff000001] [("v", .hue 120)] none 0 (by decide) (by decide)
    (fun l h => Option.noConfusion h) 0 (by decide) 120 (by decide)

/-- C2 (amended): a per-color table entry whose packed target is non-zero
(target other than `#000000`) is written with the source pixel's original
alpha for every non-transparent, non-static pixel with that key. -/
theorem C2_table_fixed_color (width height : ℕ) (src : List ℕ)
    (vars : List (String × PS.VSpec)) (statics : Option (List String))
    (idx : ℕ) (hidx : idx < width * height)
    (ha : (src.getD idx 0 >>> 24) &&& 0xff ≠ 0)
    (hns : ∀ l, statics = some l → (src.getD idx 0 &&& 0xffffff) ∉ l.map PS.hexToInt32)
    (i : ℕ) (hi : i < vars.length) (es : List (String × String)) (v : ℕ)
    (hspec : (PS.mkCtx width height src vars statics).specs.getD i (.table []) = .table es)
    (hlook : PS.tableLookup es (src.getD idx 0 &&& 0xffffff) = some v)
    (hv : v ≠ 0) :
    ((PS.stateAfter (PS.mkCtx width height src vars statics) height).buffers.getD i []).getD idx 0
      = (((src.getD idx 0 >>> 24) &&& 0xff) <<< 24) ||| v := by
  have hn : (PS.mkCtx width height src vars statics).names.length
      = (PS.mkCtx width height src vars statics).specs.length := by
    simp [PS.mkCtx]
  have hi' : i < (PS.mkCtx width height src vars statics).specs.length := by
    simpa [PS.mkCtx] using hi
  have hmain := PS.stateAfter_buffers_getD (PS.mkCtx width height src vars statics) hn i idx hi' hidx
  have hgoal : ((PS.stateAfter (PS.mkCtx width height src vars statics) height).buffers.getD i []).getD idx 0
      = match PS.pixWrite (PS.mkCtx width height src vars statics) i idx with
        | some v => v
        | none => 0 := hmain
  have hns' : ∀ l, (PS.mkCtx width height src vars statics).statics = some l
      → ((src.getD idx 0 &&& 0xffffff) ∉ l) := by
    intro l hl
    cases statics with
    | none => exact absurd hl (by simp [PS.mkCtx])
    | some sl =>
      have : (PS.mkCtx width height src vars (some sl)).statics = some (sl.map PS.hexToInt32) := rfl
      rw [this] at hl
      rw [← Option.some_injective _ hl]
      exact hns sl rfl
  have hvw := PS.variantWrite_nonstatic (PS.mkCtx width height src vars statics).statics
    (PS.mkCtx width height src vars statics).pal
    ((PS.mkCtx width height src vars statics).specs.getD i (.table [])) i (src.getD idx 0) hns'
  rw [hspec] at hvw
  have hpal : (PS.mkCtx width height src vars statics).pal (src.getD idx 0 &&& 0xffffff) i
      = some v := by
    rw [show (PS.mkCtx width height src vars statics).pal
        = PS.compilePalettes (PS.mkCtx width height src vars statics).specs from rfl]
    rw [PS.compilePalettes_table _ i es hspec hi' _]
    exact hlook
  have hpwdef : PS.pixWrite (PS.mkCtx width height src vars statics) i idx
      = PS.variantWrite (PS.mkCtx width height src vars statics).statics
          (PS.mkCtx width height src vars statics).pal
          ((PS.mkCtx width height src vars statics).specs.getD i (.table [])) i (src.getD idx 0) := by
    rw [PS.pixWrite_def]
    exact if_neg ha
  rw [hgoal, hpwdef, hspec, hvw]
  unfold PS.tableFallback
  rw [hpal]
  simp only [hv, ne_eq, not_false_eq_true, if_true]

/-- Witness for C2 at a concrete input: the table maps the pixel's color
`#010000` to `#020000`. -/
theorem C2_witness :
    ((PS.stateAfter (PS.mkCtx 1 1 [0xff000001] [("v", .table [("#010000", "#020000")])] none) 1).buffers.getD 0 []).getD 0 0
      = (((([0xff000001] : List ℕ).getD 0 0 >>> 24) &&& 0xff) <<< 24) ||| 2 :=
  C2_table_fixed_color 1 1 [0xff000001] [("v", .table [("#010000", "#020000")])] none 0
    (by decide) (by decide) (fun l h => Option.noConfusion h) 0 (by decide)
    [("#010000", "#020000")] 2 (by decide) (by decide) (by decide)

namespace PS

lemma runRows_append (ctx : Ctx) (ig : Bool) (ys zs : List ℕ) (st : SwapState) :
    runRows ctx ig (ys ++ zs) st
      = match runRows ctx ig ys st with
        | .error e => .error e
        | .ok st2 => runRows ctx ig zs st2 := by
  induction ys generalizing st with
  | nil => rfl
  | cons y ys ih =>
    rw [List.cons_append]
    show (if ig = false ∧ (processRow ctx y st).missing ≠ []
        then Except.error (mkMissingError (processRow ctx y st).missing)
        else runRows ctx ig (ys ++ zs) (processRow ctx y st)) = _
    by_cases hc : ig = false ∧ (processRow ctx y st).missing ≠ []
    · rw [if_pos hc]
      show _ = (match (if ig = false ∧ (processRow ctx y st).missing ≠ []
          then Except.error (mkMissingError (processRow ctx y st).missing)
          else runRows ctx ig ys (processRow ctx y st)) with
        | .error e => .error e
        | .ok st2 => runRows ctx ig zs st2)
      rw [if_pos hc]
    · rw [if_neg hc, ih]
      show _ = (match (if ig = false ∧ (processRow ctx y st).missing ≠ []
          then Except.error (mkMissingError (processRow ctx y st).missing)
          else runRows ctx ig ys (processRow ctx y st)) with
        | .error e => .error e
        | .ok st2 => runRows ctx ig zs st2)
      rw [if_neg hc]

lemma stateAfter_succ (ctx : Ctx) (k : ℕ) :
    stateAfter ctx (k + 1) = processRow ctx k (stateAfter ctx k) := by
  unfold stateAfter
  rw [List.range_succ, List.foldl_append]
  rfl

lemma runRows_ok_of (ctx : Ctx) (k : ℕ)
    (hclean : ∀ r' < k, (stateAfter ctx (r' + 1)).missing = []) :
    runRows ctx false (List.range k) (initState ctx) = .ok (stateAfter ctx k) := by
  induction k with
  | zero => rfl
  | succ k ih =>
    rw [List.range_succ, runRows_append, ih (fun r' hr' => hclean r' (by omega))]
    show (if false = false ∧ (processRow ctx k (stateAfter ctx k)).missing ≠ []
        then Except.error (mkMissingError (processRow ctx k (stateAfter ctx k)).missing)
        else runRows ctx false [] (processRow ctx k (stateAfter ctx k))) = _
    rw [← stateAfter_succ]
    rw [if_neg (by
      rintro ⟨-, hne⟩
      exact hne (hclean k (by omega)))]
    rfl

lemma runRows_ok_state (ctx : Ctx) (ig : Bool) (ys : List ℕ) (st st' : SwapState)
    (h : runRows ctx ig ys st = .ok st') :
    st' = ys.foldl (fun s y => processRow ctx y s) st := by
  induction ys generalizing st with
  | nil =>
    simp only [runRows] at h
    cases h
    rfl
  | cons y ys ih =>
    rw [show runRows ctx ig (y :: ys) st
        = (if ig = false ∧ (processRow ctx y st).missing ≠ []
          then Except.error (mkMissingError (processRow ctx y st).missing)
          else runRows ctx ig ys (processRow ctx y st)) from rfl] at h
    by_cases hc : ig = false ∧ (processRow ctx y st).missing ≠ []
    · rw [if_pos hc] at h
      cases h
    · rw [if_neg hc] at h
      rw [List.foldl_cons]
      exact ih (processRow ctx y st) h

lemma keepVariant_iff (images : Option (List (String × Prior))) (w h : ℕ)
    (name : String) (buf : List ℕ) :
    keepVariant images w h name buf = true
      ↔ ∀ p, priorLookup images name = some p
          → equals ⟨w, h, buf⟩ (getImageDataM w h p) = false := by
  unfold keepVariant
  cases hm : priorLookup images name with
  | none =>
    simp only [true_iff]
    intro p hp
    cases hp
  | some p =>
    constructor
    · intro hk q hq
      cases hq
      simpa using hk
    · intro hc
      simpa using hc p rfl

lemma diffPhase_fst_subset (images : Option (List (String × Prior))) (w h : ℕ)
    (zs : List (String × List ℕ)) (x : String)
    (hx : x ∈ (diffPhase images w h zs).map Prod.fst) : x ∈ zs.map Prod.fst := by
  induction zs with
  | nil => exact hx
  | cons z rest ih =>
    obtain ⟨n0, b0⟩ := z
    rw [show diffPhase images w h ((n0, b0) :: rest)
        = (if keepVariant images w h n0 b0 then [(n0, b0)] else [])
            ++ diffPhase images w h rest from rfl] at hx
    rw [List.map_append, List.mem_append] at hx
    rcases hx with hx | hx
    · split at hx
      · have hx0 : x = n0 := by simpa using hx
        subst hx0
        simp
      · simp at hx
    · exact List.mem_cons_of_mem _ (ih hx)

lemma diffPhase_mem (images : Option (List (String × Prior))) (w h : ℕ)
    (zs : List (String × List ℕ)) (hnd : (zs.map Prod.fst).Nodup)
    (name : String) (buf : List ℕ) (hz : (name, buf) ∈ zs) :
    (name ∈ (diffPhase images w h zs).map Prod.fst)
      ↔ ∀ p, priorLookup images name = some p
          → equals ⟨w, h, buf⟩ (getImageDataM w h p) = false := by
  induction zs with
  | nil => simp at hz
  | cons z rest ih =>
    obtain ⟨n0, b0⟩ := z
    have hdd : diffPhase images w h ((n0, b0) :: rest)
        = (if keepVariant images w h n0 b0 then [(n0, b0)] else [])
            ++ diffPhase images w h rest := rfl
    have hnd2 : n0 ∉ rest.map Prod.fst ∧ (rest.map Prod.fst).Nodup := by
      rw [List.map_cons, List.nodup_cons] at hnd
      exact hnd
    rcases List.mem_cons.mp hz with hz0 | hzr
    · rcases Prod.mk.injEq .. ▸ hz0 with ⟨rfl, rfl⟩
      rw [hdd, List.map_append, List.mem_append, ← keepVariant_iff]
      constructor
      · rintro (hin | hin)
        · split at hin
          · assumption
          · simp at hin
        · exact absurd (diffPhase_fst_subset images w h rest name hin) hnd2.1
      · intro hk
        left
        rw [if_pos hk]
        simp
    · have hname : name ∈ rest.map Prod.fst := by
        simpa using List.mem_map_of_mem Prod.fst hzr
      have hne : name ≠ n0 := by
        rintro rfl
        exact hnd2.1 hname
      rw [hdd, List.map_append, List.mem_append, ← ih hnd2.2 hzr]
      constructor
      · rintro (hin | hin)
        · exfalso
          apply hne
          split at hin <;> simpa using hin
        · exact hin
      · exact Or.inr

end PS

namespace PS

lemma stateAfter_wf (ctx : Ctx) (hn : ctx.names.length = ctx.specs.length) (k : ℕ) :
    stWF ctx (stateAfter ctx k) := by
  rw [stateAfter_eq_foldPixels]
  exact foldPixels_wf ctx hn _ _ (initState_wf ctx)

end PS

/-- C1 (amended): with `ignoreMissing` unset, the missing-mapping error is
raised exactly once, at the end of the first image row by which a missing
(variant, color) pair has been recorded — not after the entire image — so
later rows are never scanned; its message enumerates, de-duplicated in
first-seen order, the `int32ToHex` renderings of the missing packed colors
(which swap the red and blue channels relative to the source hex) and the
affected variant names recorded up to that row. -/
theorem C1_missing_per_row (width height : ℕ) (src : List ℕ)
    (vars : List (String × PS.VSpec)) (statics : Option (List String))
    (images : Option (List (String × Prior))) (r : ℕ)
    (hr : r < height)
    (hmiss : (PS.stateAfter (PS.mkCtx width height src vars statics) (r + 1)).missing ≠ [])
    (hclean : ∀ r' < r, (PS.stateAfter (PS.mkCtx width height src vars statics) (r' + 1)).missing = []) :
    PS.paletteSwap width height src vars statics images false
      = .error (PS.mkMissingError
          ((PS.stateAfter (PS.mkCtx width height src vars statics) (r + 1)).missing)) := by
  set C := PS.mkCtx width height src vars statics with hC
  have hsplit : List.range height
      = (List.range r ++ [r]) ++ (List.range (height - (r + 1))).map ((r + 1) + ·) := by
    rw [← List.range_succ, ← List.range_add]
    congr 1
    omega
  show (match PS.runRows C false (List.range height) (PS.initState C) with
      | .error e => (Except.error e : Except PS.MissingColorMapping (List (String × List ℕ)))
      | .ok st => Except.ok (PS.diffPhase images width height (C.names.zip st.buffers))) = _
  rw [hsplit, PS.runRows_append, PS.runRows_append, PS.runRows_ok_of C r hclean]
  have hrow : PS.runRows C false [r] (PS.stateAfter C r)
      = .error (PS.mkMissingError ((PS.stateAfter C (r + 1)).missing)) := by
    show (if false = false ∧ (PS.processRow C r (PS.stateAfter C r)).missing ≠ []
        then Except.error (PS.mkMissingError (PS.processRow C r (PS.stateAfter C r)).missing)
        else PS.runRows C false [] (PS.processRow C r (PS.stateAfter C r))) = _
    rw [← PS.stateAfter_succ]
    rw [if_pos ⟨rfl, hmiss⟩]
  dsimp only
  rw [hrow]

/-- Witness for C1 at a concrete input: a 1-wide, 2-row image whose first
row already has a missing color, so the error carries only that row's
data. -/
theorem C1_witness :
    PS.paletteSwap 1 2 [0xff000001, 0xff000002] [("v", .table [])] (some []) none false
      = .error (PS.mkMissingError
          ((PS.stateAfter (PS.mkCtx 1 2 [0xff000001, 0xff000002] [("v", .table [])] (some [])) 1).missing)) :=
  C1_missing_per_row 1 2 [0xff000001, 0xff000002] [("v", .table [])] (some []) none 0
    (by decide) (by decide) (fun r' hr' => absurd hr' (Nat.not_lt_zero r'))

/-- C6 (amended): in the returned mapping, a variant with no prior image is
always present; a variant with a prior image is present exactly when the
prior, read back at the source's dimensions (cropped or padded with
transparent black by `getImageData`), differs from the freshly computed
output — in particular a prior of different dimensions is *not*
automatically treated as changed. -/
theorem C6_diff_suppression (width height : ℕ) (src : List ℕ)
    (vars : List (String × PS.VSpec)) (statics : Option (List String))
    (images : Option (List (String × Prior))) (ig : Bool) (res : List (String × List ℕ))
    (hok : PS.paletteSwap width height src vars statics images ig = .ok res)
    (hnd : ((PS.mkCtx width height src vars statics).names).Nodup)
    (i : ℕ) (name : String) (buf : List ℕ)
    (hname : (PS.mkCtx width height src vars statics).names[i]? = some name)
    (hbuf : (PS.stateAfter (PS.mkCtx width height src vars statics) height).buffers[i]? = some buf) :
    (name ∈ res.map Prod.fst)
      ↔ ∀ p, PS.priorLookup images name = some p
          → PS.equals ⟨width, height, buf⟩ (PS.getImageDataM width height p) = false := by
  set C := PS.mkCtx width height src vars statics with hC
  have hn : C.names.length = C.specs.length := by simp [hC, PS.mkCtx]
  have hok2 : (match PS.runRows C ig (List.range height) (PS.initState C) with
      | .error e => (.error e : Except PS.MissingColorMapping (List (String × List ℕ)))
      | .ok st => .ok (PS.diffPhase images width height (C.names.zip st.buffers))) = .ok res := hok
  cases hrun : PS.runRows C ig (List.range height) (PS.initState C) with
  | error e =>
    rw [hrun] at hok2
    cases hok2
  | ok st =>
    rw [hrun] at hok2
    have hres : res = PS.diffPhase images width height (C.names.zip st.buffers) := by
      cases hok2
      rfl
    have hst : st = PS.stateAfter C height := PS.runRows_ok_state C ig _ _ _ hrun
    subst hst
    have hwf := PS.stateAfter_wf C hn height
    have hzip : (C.names.zip (PS.stateAfter C height).buffers)[i]? = some (name, buf) := by
      rw [List.getElem?_zip_eq_some]
      exact ⟨hname, hbuf⟩
    have hmemzip : (name, buf) ∈ C.names.zip (PS.stateAfter C height).buffers :=
      List.getElem?_mem hzip
    have hfst : (C.names.zip (PS.stateAfter C height).buffers).map Prod.fst = C.names :=
      List.map_fst_zip _ _ (by rw [hwf.1, hn])
    rw [hres]
    exact PS.diffPhase_mem images width height _ (by rw [hfst]; exact hnd) name buf hmemzip

/-- Witness for C6 at a concrete input: a 1-by-1 transparent image whose
variant has an identical prior image, so the variant is absent from the
result. -/
theorem C6_witness :
    (("v" : String) ∈ ([] : List (String × List ℕ)).map Prod.fst)
      ↔ ∀ p, PS.priorLookup (some [("v", (⟨1, 1, [0]⟩ : Prior))]) "v" = some p
          → PS.equals ⟨1, 1, [0]⟩ (PS.getImageDataM 1 1 p) = false :=
  C6_diff_suppression 1 1 [0] [("v", .hue 5)] none (some [("v", ⟨1, 1, [0]⟩)]) false []
    (by decide) (by decide) 0 "v" [0] (by decide) (by decide)

lemma hasPair_cons (x : Char) (xs : List Char) :
    hasAdjacentWordPair (x :: xs)
      ↔ (0 < xs.length ∧ PS0.isWordChar x ∧ PS0.isWordChar (xs.getD 0 ' '))
        ∨ hasAdjacentWordPair xs := by
  constructor
  · rintro ⟨i, hi, h1, h2⟩
    cases i with
    | zero =>
      left
      refine ⟨by simpa using hi, by simpa using h1, by simpa using h2⟩
    | succ j =>
      right
      exact ⟨j, by simpa using hi, by simpa using h1, by simpa using h2⟩
  · rintro (⟨hl, h1, h2⟩ | ⟨j, hj, h1, h2⟩)
    · exact ⟨0, by simpa using hl, by simpa using h1, by simpa using h2⟩
    · exact ⟨j + 1, by simpa using hj, by simpa using h1, by simpa using h2⟩

lemma wordPairsGo_nil_iff :
    ∀ l : List Char,
      (∀ p : Char, PS0.wordPairsGo (some p) l = [] ↔ ¬ hasAdjacentWordPair (p :: l))
      ∧ (PS0.wordPairsGo none l = [] ↔ ¬ hasAdjacentWordPair l) := by
  intro l
  induction l with
  | nil =>
    constructor
    · intro p
      simp only [PS0.wordPairsGo, true_iff]
      rintro ⟨i, hi, -, -⟩
      simp at hi
    · simp only [PS0.wordPairsGo, true_iff]
      rintro ⟨i, hi, -, -⟩
      simp at hi
  | cons c rest ih =>
    constructor
    · intro p
      show (if PS0.isWordChar p ∧ PS0.isWordChar c
          then (p, c) :: PS0.wordPairsGo none rest
          else PS0.wordPairsGo (some c) rest) = [] ↔ _
      by_cases hw : PS0.isWordChar p ∧ PS0.isWordChar c
      · rw [if_pos hw]
        simp only [List.cons_ne_nil, false_iff, not_not]
        exact ⟨0, by simp, by simpa using hw.1, by simpa using hw.2⟩
      · rw [if_neg hw, (ih.1 c)]
        rw [hasPair_cons p (c :: rest)]
        simp only [List.length_cons, Nat.zero_lt_succ, true_and, List.getD_cons_zero]
        constructor
        · intro hnp
          rintro (hpair | hrest)
          · exact hw hpair
          · exact hnp hrest
        · intro hnp hrest
          exact hnp (Or.inr hrest)
    · show PS0.wordPairsGo (some c) rest = [] ↔ _
      exact ih.1 c

/-- C7 (amended): `hexToRgba` fails with `Invalid color` exactly when the
string contains no whole byte-pair (no two adjacent word characters); a
string with at least one pair but a trailing unpaired character parses its
pairs and silently drops the remainder.  When a palette value is such a
pairless (non-empty) string, the failure propagates from inside the pixel
loop and aborts the whole remap call with no partial results. -/
theorem C7_invalid_color (s v : String) (hv1 : v ≠ "") (hv2 : ¬ hasAdjacentWordPair v.data) :
    (PS0.hexToRgba s = .error (.invalidColor s) ↔ ¬ hasAdjacentWordPair s.data)
    ∧ PS0.paletteSwap 1 1 [0, 0, 0, 255] [("x", .table [("#000000", .colorV v)])] none none false
        = .error (.invalidColor v) := by
  have hchar : ∀ t : String, PS0.hexToRgba t = .error (.invalidColor t) ↔ ¬ hasAdjacentWordPair t.data := by
    intro t
    unfold PS0.hexToRgba PS0.wordPairs
    rw [← (wordPairsGo_nil_iff t.data).2]
    by_cases hp : PS0.wordPairsGo none t.data = []
    · rw [if_pos hp]
      simp [hp]
    · rw [if_neg hp]
      simp [hp]
  refine ⟨hchar s, ?_⟩
  have hfirst : PS0.hexToRgba v = .error (.invalidColor v) := (hchar v).mpr hv2
  have hpix : PS0.pixelLoop (.table [("#000000", .colorV v)]) none [0, 0, 0, 255] [0]
      (List.replicate 4 0, [])
      = (if v = "" then
          PS0.pixelLoop (.table [("#000000", .colorV v)]) none [0, 0, 0, 255] []
            (PS0.setPix (List.replicate 4 0) 0 0 0 0 255, [])
        else
          match PS0.hexToRgba v with
          | .error e => .error e
          | .ok parts =>
            PS0.pixelLoop (.table [("#000000", .colorV v)]) none [0, 0, 0, 255] []
              (PS0.setPix (List.replicate 4 0) 0 (PS0.chanByte parts 0) (PS0.chanByte parts 1)
                (PS0.chanByte parts 2) (PS0.alphaByte parts), [])) := rfl
  have hpix2 : PS0.pixelLoop (.table [("#000000", .colorV v)]) none [0, 0, 0, 255]
      (List.range (1 * 1)) (List.replicate (1 * 1 * 4) 0, []) = .error (.invalidColor v) := by
    rw [show List.range (1 * 1) = [0] from rfl,
      show List.replicate (1 * 1 * 4) (0 : ℕ) = List.replicate 4 0 from rfl, hpix,
      if_neg hv1, hfirst]
  show PS0.variantLoop none none false 1 1 [0, 0, 0, 255] [("x", .table [("#000000", .colorV v)])]
      = .error (.invalidColor v)
  show (match PS0.pixelLoop (.table [("#000000", .colorV v)]) none [0, 0, 0, 255]
      (List.range (1 * 1)) (List.replicate (1 * 1 * 4) 0, []) with
    | .error e => (Except.error e : Except PS0.SwapError (List (String × List ℕ)))
    | .ok (d, miss) =>
      if false = false ∧ miss ≠ [] then .error (.missingMapping miss "x")
      else
        (match PS0.variantLoop none none false 1 1 [0, 0, 0, 255] [] with
        | .error e => .error e
        | .ok restRes => .ok (("x", d) :: restRes))) = _
  rw [hpix2]

lemma jsRound_eq_round (q : ℚ) : jsRound q = round q := by
  rw [round_eq]
  unfold jsRound
  have hnd := Rat.num_div_den q
  set n := q.num with hn
  set d := q.den with hd
  have hdnz : d ≠ 0 := q.den_nz
  have hdQ : (d : ℚ) ≠ 0 := by exact_mod_cast hdnz
  rw [Int.fdiv_eq_ediv _ (by positivity)]
  have h2 : ((2 * d : ℕ) : ℤ) = 2 * (d : ℤ) := by push_cast; ring
  rw [← h2, ← Rat.floor_intCast_div_natCast]
  congr 1
  rw [← hnd]
  push_cast
  field_simp
  ring

lemma jsRound_natCast (n : ℕ) : jsRound ((n : ℚ)) = n := by
  rw [jsRound_eq_round, round_natCast]

lemma jsTruncNat_natCast (n : ℕ) : jsTruncNat ((n : ℚ)) = n := by
  unfold jsTruncNat
  simp [Rat.num_natCast, Rat.den_natCast]

set_option maxRecDepth 8192 in
lemma padHex2_canon (n : ℕ) (hn : n ≤ 255) :
    (⟨padHex2 (Nat.toDigits 16 n)⟩ : String) = canonHexByte n := by
  revert hn
  revert n
  decide

lemma hex_natCast (n : ℕ) (hn : n ≤ 255) : PS0.hex ((n : ℚ)) = canonHexByte n := by
  unfold PS0.hex
  rw [jsRound_natCast]
  exact padHex2_canon n hn

/-- C9 (amended): `rgbaToHex` formats each channel as a zero-padded
two-digit hex byte after rounding to the nearest integer, and appends the
alpha byte exactly when an alpha value is present, non-zero and not 255
— alpha 0 is falsy in `a && a !== 255`, so it is treated like an absent
alpha and NOT appended. -/
theorem C9_rgba_to_hex (r g b a : ℕ) (hr : r ≤ 255) (hg : g ≤ 255) (hb : b ≤ 255)
    (ha : a ≤ 255) :
    (PS0.rgbaToHex r g b (some a)
      = "#" ++ canonHexByte r ++ canonHexByte g ++ canonHexByte b
          ++ (if a ≠ 0 ∧ a ≠ 255 then canonHexByte a else ""))
    ∧ (∀ q : ℚ, 0 ≤ q → q ≤ 255 → PS0.hex q = canonHexByte ((round q).toNat)) := by
  constructor
  · unfold PS0.rgbaToHex
    dsimp only
    rw [hex_natCast r hr, hex_natCast g hg, hex_natCast b hb]
    have hcond : (((a : ℚ)) ≠ 0 ∧ ((a : ℚ)) ≠ 255) ↔ (a ≠ 0 ∧ a ≠ 255) := by
      constructor
      · rintro ⟨h1, h2⟩
        refine ⟨?_, ?_⟩
        · intro hc; apply h1; rw [hc]; norm_num
        · intro hc; apply h2; rw [hc]; norm_num
      · rintro ⟨h1, h2⟩
        refine ⟨?_, ?_⟩
        · intro hc; apply h1; exact_mod_cast hc
        · intro hc; apply h2; exact_mod_cast hc
    by_cases hc : a ≠ 0 ∧ a ≠ 255
    · rw [if_pos (hcond.mpr hc), if_pos hc, hex_natCast a ha]
    · rw [if_neg (fun hq => hc (hcond.mp hq)), if_neg hc]
  · intro q hq0 hq255
    unfold PS0.hex
    rw [jsRound_eq_round]
    have hle : round q ≤ 255 := by
      rw [round_eq]
      calc ⌊q + 1 / 2⌋ ≤ ⌊(255 : ℚ) + 1 / 2⌋ := Int.floor_le_floor (by linarith)
      _ = 255 := by
        rw [show (255 : ℚ) + 1 / 2 = (511 : ℚ) / 2 by norm_num]
        rw [show ((511 : ℚ)) / 2 = ((511 : ℤ) : ℚ) / ((2 : ℕ) : ℚ) by norm_num]
        rw [Rat.floor_intCast_div_natCast]
        rfl
    exact padHex2_canon _ (by omega)

/-- Witness for C9 at a concrete input. -/
theorem C9_witness :
    (PS0.rgbaToHex 1 2 3 (some 0)
      = "#" ++ canonHexByte 1 ++ canonHexByte 2 ++ canonHexByte 3
          ++ (if (0 : ℕ) ≠ 0 ∧ (0 : ℕ) ≠ 255 then canonHexByte 0 else ""))
    ∧ (∀ q : ℚ, 0 ≤ q → q ≤ 255 → PS0.hex q = canonHexByte ((round q).toNat)) := by
  have h := C9_rgba_to_hex 1 2 3 0 (by decide) (by decide) (by decide) (by decide)
  exact ⟨by exact_mod_cast h.1, h.2⟩

/-- C10: hue rotation in the current engine is the identity on achromatic
pixels: for `r = g = b` the saturation test short-circuits (`s === 0`) and
`applyHue` returns the packed original triple, for every target hue. -/
theorem C10_achromatic_identity (r : ℕ) (hr : r ≤ 255) (hue : ℚ) :
    PS.applyHue (r, r, r) hue = (r <<< 16) ||| (r <<< 8) ||| r := by
  unfold PS.applyHue
  simp only [min_self, max_self, eq_self_iff_true, if_true]
  have hval : ((r : ℚ) / 255 + (r : ℚ) / 255) / 2 * 255 = (r : ℚ) := by
    field_simp
    ring
  rw [hval, jsTruncNat_natCast]

/-- Witness for C10 at a concrete input. -/
theorem C10_witness :
    PS.applyHue (7, 7, 7) 123 = (7 <<< 16) ||| (7 <<< 8) ||| 7 :=
  C10_achromatic_identity 7 (by decide) 123

/-- Witness for C7 at a concrete input: the pairless string `"#z"`. -/
theorem C7_witness :
    (PS0.hexToRgba "#z" = .error (.invalidColor "#z") ↔ ¬ hasAdjacentWordPair "#z".data)
    ∧ PS0.paletteSwap 1 1 [0, 0, 0, 255] [("x", .table [("#000000", .colorV "#z")])] none none false
        = .error (.invalidColor "#z") :=
  C7_invalid_color "#z" "#z" (by decide) (by decide)

/-- C1 counterexample: in a 1-wide, 2-row image where both rows contain
missing colors, the error is raised after row 0 and enumerates only row
0's color — not the whole image's — and renders packed color 1 (source
hex `#010000`) as `#000001` (red/blue swapped). -/
theorem C1_counterexample :
    PS.paletteSwap 1 2 [0xff000001, 0xff000002] [("v", .table [])] (some []) none false
      = .error ⟨["#000001"], ["v"]⟩
    ∧ PS.hexToInt32 "#010000" = 1 ∧ PS.hexToInt32 "#020000" = 2 := by
  decide

/-- C2 counterexample: a table entry whose target is `#000000` packs to the
falsy value 0, so the pixel is passed through unchanged (`0xff000001`)
instead of being written as black with original alpha (`0xff000000`). -/
theorem C2_counterexample :
    PS.paletteSwap 1 1 [0xff000001] [("v", .table [("#010000", "#000000")])] none none false
      = .ok [("v", [0xff000001])] ∧ (0xff000001 : ℕ) ≠ 0xff000000 := by
  decide

/-- C4 counterexample: an alpha-0 pixel with nonzero color byte (packed
value 1) is not copied through; the output pixel is the zero-initialized
transparent black 0, which differs from the input pixel bytes. -/
theorem C4_counterexample :
    PS.paletteSwap 1 1 [1] [("v", .table [])] none none false = .ok [("v", [0])]
    ∧ (0 : ℕ) ≠ 1 := by
  decide

/-- C6 counterexample: a prior image of different dimensions (2-by-2) than
the source (1-by-1) is NOT treated as changed: `getImageData` crops it to
the source dimensions, the comparison succeeds, and the variant is omitted
from the result even though the dimensions differ. -/
theorem C6_counterexample :
    PS.paletteSwap 1 1 [0] [("v", .hue 5)] none (some [("v", ⟨2, 2, [0, 0, 0, 0]⟩)]) false
      = .ok [] ∧ (2 : ℕ) ≠ 1 := by
  decide

/-- C7 counterexample: `"#abc"` does not decompose into whole byte-pairs
(odd trailing character), yet `hexToRgba` does not fail: the regex finds
the pair `ab` and the trailing `c` is silently dropped. -/
theorem C7_counterexample :
    PS0.hexToRgba "#abc" = .ok [some 171] := by
  decide

/-- C9 counterexample: alpha 0 is present and differs from 255, but
`a && a !== 255` is falsy at 0, so no alpha byte is appended. -/
theorem C9_counterexample :
    PS0.rgbaToHex 1 2 3 (some 0) = "#010203" ∧ ("#010203" : String) ≠ "#01020300" := by
  decide

lemma hueChannel_A (t1 t2 t3 : ℚ) (h1 : 0 ≤ t3) (h2 : t3 < 1 / 6) :
    hueChannel t1 t2 t3 = t1 + (t2 - t1) * 6 * t3 := by
  unfold hueChannel
  dsimp only
  rw [if_neg (by linarith : ¬ t3 < 0), if_neg (by linarith : ¬ t3 > 1),
    if_pos (by linarith : 6 * t3 < 1)]

lemma hueChannel_B (t1 t2 t3 : ℚ) (h1 : 1 / 6 ≤ t3) (h2 : t3 < 1 / 2) :
    hueChannel t1 t2 t3 = t2 := by
  unfold hueChannel
  dsimp only
  rw [if_neg (by linarith : ¬ t3 < 0), if_neg (by linarith : ¬ t3 > 1),
    if_neg (by linarith : ¬ 6 * t3 < 1), if_pos (by linarith : 2 * t3 < 1)]

lemma hueChannel_C (t1 t2 t3 : ℚ) (h1 : 1 / 2 ≤ t3) (h2 : t3 < 2 / 3) :
    hueChannel t1 t2 t3 = t1 + (t2 - t1) * (2 / 3 - t3) * 6 := by
  unfold hueChannel
  dsimp only
  rw [if_neg (by linarith : ¬ t3 < 0), if_neg (by linarith : ¬ t3 > 1),
    if_neg (by linarith : ¬ 6 * t3 < 1), if_neg (by linarith : ¬ 2 * t3 < 1),
    if_pos (by linarith : 3 * t3 < 2)]

lemma hueChannel_D (t1 t2 t3 : ℚ) (h1 : 2 / 3 ≤ t3) (h2 : t3 ≤ 1) :
    hueChannel t1 t2 t3 = t1 := by
  unfold hueChannel
  dsimp only
  rw [if_neg (by linarith : ¬ t3 < 0), if_neg (by linarith : ¬ t3 > 1),
    if_neg (by linarith : ¬ 6 * t3 < 1), if_neg (by linarith : ¬ 2 * t3 < 1),
    if_neg (by linarith : ¬ 3 * t3 < 2)]

lemma hueChannel_wrapNeg (t1 t2 t3 : ℚ) (h1 : -1 ≤ t3) (h2 : t3 < 0) :
    hueChannel t1 t2 t3 = hueChannel t1 t2 (t3 + 1) := by
  unfold hueChannel
  dsimp only
  rw [if_pos (show t3 < 0 from h2), if_neg (by linarith : ¬ t3 + 1 > 1),
    if_neg (by linarith : ¬ t3 + 1 < 0), if_neg (by linarith : ¬ t3 + 1 > 1)]

lemma hueChannel_wrapHigh (t1 t2 t3 : ℚ) (h1 : 1 < t3) (h2 : t3 ≤ 2) :
    hueChannel t1 t2 t3 = hueChannel t1 t2 (t3 - 1) := by
  unfold hueChannel
  dsimp only
  rw [if_neg (by linarith : ¬ t3 < 0), if_pos (show t3 > 1 from h1),
    if_neg (by linarith : ¬ t3 - 1 < 0), if_neg (by linarith : ¬ t3 - 1 > 1)]

lemma satDenom_pos_left {mn mx : ℚ} (h0 : 0 ≤ mn) (hlt : mn < mx) : 0 < mx + mn := by
  linarith

lemma satDenom_pos_right {mn mx : ℚ} (hlt : mn < mx) (h1 : mx ≤ 1) : 0 < 2 - mx - mn := by
  linarith

lemma t2_eq (mn mx : ℚ) (h0 : 0 ≤ mn) (hlt : mn < mx) (h1 : mx ≤ 1) :
    (if (mn + mx) / 2 < 1 / 2
      then (mn + mx) / 2
        * (1 + (if (mn + mx) / 2 ≤ 1 / 2 then (mx - mn) / (mx + mn) else (mx - mn) / (2 - mx - mn)))
      else (mn + mx) / 2
        + (if (mn + mx) / 2 ≤ 1 / 2 then (mx - mn) / (mx + mn) else (mx - mn) / (2 - mx - mn))
        - (mn + mx) / 2
          * (if (mn + mx) / 2 ≤ 1 / 2 then (mx - mn) / (mx + mn) else (mx - mn) / (2 - mx - mn)))
    = mx := by
  rcases lt_trichotomy ((mn + mx) / 2) (1 / 2) with hl | hl | hl
  · rw [if_pos hl, if_pos (le_of_lt hl)]
    have hden := satDenom_pos_left h0 hlt
    field_simp
    ring
  · rw [if_neg (by linarith), if_pos (le_of_eq hl)]
    have hsum : mn + mx = 1 := by linarith
    have hsum2 : mx + mn = 1 := by linarith
    rw [hsum, hsum2, div_one]
    linarith
  · rw [if_neg (by linarith), if_neg (by linarith)]
    have hden := satDenom_pos_right hlt h1
    field_simp
    ring

lemma sat_pos (mn mx : ℚ) (h0 : 0 ≤ mn) (hlt : mn < mx) (h1 : mx ≤ 1) :
    (if (mn + mx) / 2 ≤ 1 / 2 then (mx - mn) / (mx + mn) else (mx - mn) / (2 - mx - mn)) ≠ 0 := by
  split
  · exact ne_of_gt (div_pos (by linarith) (satDenom_pos_left h0 hlt))
  · exact ne_of_gt (div_pos (by linarith) (satDenom_pos_right hlt h1))

lemma hslToRgb_eval (H S L : ℚ) :
    PS0.hslToRgb (H, S * 100, L * 100)
      = if S = 0 then (L * 255, L * 255, L * 255)
        else
          (hueChannel (2 * L - (if L < 1 / 2 then L * (1 + S) else L + S - L * S))
             (if L < 1 / 2 then L * (1 + S) else L + S - L * S) (H / 360 + 1 / 3) * 255,
           hueChannel (2 * L - (if L < 1 / 2 then L * (1 + S) else L + S - L * S))
             (if L < 1 / 2 then L * (1 + S) else L + S - L * S) (H / 360) * 255,
           hueChannel (2 * L - (if L < 1 / 2 then L * (1 + S) else L + S - L * S))
             (if L < 1 / 2 then L * (1 + S) else L + S - L * S) (H / 360 - 1 / 3) * 255) := by
  unfold PS0.hslToRgb
  dsimp only
  rw [show S * 100 / 100 = S from by ring, show L * 100 / 100 = L from by ring]
  rw [show H / 360 + 1 / 3 * -(0 - 1) = H / 360 + 1 / 3 from by ring,
    show H / 360 + 1 / 3 * -(1 - 1) = H / 360 from by ring,
    show H / 360 + 1 / 3 * -((2 : ℚ) - 1) = H / 360 - 1 / 3 from by ring]

lemma rgbToHsl_eval (r0 g0 b0 : ℚ) :
    PS0.rgbToHsl (r0, g0, b0)
      = ((fun h1 : ℚ => if h1 < 0 then h1 + 360 else h1)
          (min ((if max (r0 / 255) (max (g0 / 255) (b0 / 255)) = min (r0 / 255) (min (g0 / 255) (b0 / 255)) then 0
            else if r0 / 255 = max (r0 / 255) (max (g0 / 255) (b0 / 255)) then
              (g0 / 255 - b0 / 255) / (max (r0 / 255) (max (g0 / 255) (b0 / 255)) - min (r0 / 255) (min (g0 / 255) (b0 / 255)))
            else if g0 / 255 = max (r0 / 255) (max (g0 / 255) (b0 / 255)) then
              2 + (b0 / 255 - r0 / 255) / (max (r0 / 255) (max (g0 / 255) (b0 / 255)) - min (r0 / 255) (min (g0 / 255) (b0 / 255)))
            else if b0 / 255 = max (r0 / 255) (max (g0 / 255) (b0 / 255)) then
              4 + (r0 / 255 - g0 / 255) / (max (r0 / 255) (max (g0 / 255) (b0 / 255)) - min (r0 / 255) (min (g0 / 255) (b0 / 255)))
            else 0) * 60) 360),
        (if max (r0 / 255) (max (g0 / 255) (b0 / 255)) = min (r0 / 255) (min (g0 / 255) (b0 / 255)) then 0
          else if (min (r0 / 255) (min (g0 / 255) (b0 / 255)) + max (r0 / 255) (max (g0 / 255) (b0 / 255))) / 2 ≤ 1 / 2 then
            (max (r0 / 255) (max (g0 / 255) (b0 / 255)) - min (r0 / 255) (min (g0 / 255) (b0 / 255)))
              / (max (r0 / 255) (max (g0 / 255) (b0 / 255)) + min (r0 / 255) (min (g0 / 255) (b0 / 255)))
          else
            (max (r0 / 255) (max (g0 / 255) (b0 / 255)) - min (r0 / 255) (min (g0 / 255) (b0 / 255)))
              / (2 - max (r0 / 255) (max (g0 / 255) (b0 / 255)) - min (r0 / 255) (min (g0 / 255) (b0 / 255)))) * 100,
        (min (r0 / 255) (min (g0 / 255) (b0 / 255)) + max (r0 / 255) (max (g0 / 255) (b0 / 255))) / 2 * 100) := by
  rfl

set_option maxHeartbeats 1600000 in
lemma hsl_roundtrip (r0 g0 b0 : ℚ)
    (hr0 : 0 ≤ r0) (hr1 : r0 ≤ 255) (hg0 : 0 ≤ g0) (hg1 : g0 ≤ 255)
    (hb0 : 0 ≤ b0) (hb1 : b0 ≤ 255) :
    PS0.hslToRgb (PS0.rgbToHsl (r0, g0, b0)) = (r0, g0, b0) := by
  rw [rgbToHsl_eval, hslToRgb_eval]
  set rn := r0 / 255 with hrn
  set gn := g0 / 255 with hgn
  set bn := b0 / 255 with hbn
  set mn := min rn (min gn bn) with hmn
  set mx := max rn (max gn bn) with hmx
  have hrn0 : 0 ≤ rn := by positivity
  have hgn0 : 0 ≤ gn := by positivity
  have hbn0 : 0 ≤ bn := by positivity
  have hrn1 : rn ≤ 1 := by rw [hrn, div_le_one (by norm_num : (0:ℚ) < 255)]; exact hr1
  have hgn1 : gn ≤ 1 := by rw [hgn, div_le_one (by norm_num : (0:ℚ) < 255)]; exact hg1
  have hbn1 : bn ≤ 1 := by rw [hbn, div_le_one (by norm_num : (0:ℚ) < 255)]; exact hb1
  have hrnv : rn * 255 = r0 := by rw [hrn]; exact div_mul_cancel₀ r0 (by norm_num)
  have hgnv : gn * 255 = g0 := by rw [hgn]; exact div_mul_cancel₀ g0 (by norm_num)
  have hbnv : bn * 255 = b0 := by rw [hbn]; exact div_mul_cancel₀ b0 (by norm_num)
  have hmn_le_rn : mn ≤ rn := min_le_left _ _
  have hmn_le_gn : mn ≤ gn := le_trans (min_le_right _ _) (min_le_left _ _)
  have hmn_le_bn : mn ≤ bn := le_trans (min_le_right _ _) (min_le_right _ _)
  have hrn_le_mx : rn ≤ mx := le_max_left _ _
  have hgn_le_mx : gn ≤ mx := le_trans (le_max_left _ _) (le_max_right _ _)
  have hbn_le_mx : bn ≤ mx := le_trans (le_max_right _ _) (le_max_right _ _)
  have hmn0 : 0 ≤ mn := le_min hrn0 (le_min hgn0 hbn0)
  have hmx1 : mx ≤ 1 := max_le hrn1 (max_le hgn1 hbn1)
  by_cases hc : mx = mn
  · rw [if_pos hc, if_pos rfl]
    have hrmn : rn = mn := le_antisymm (hc ▸ hrn_le_mx) hmn_le_rn
    have hgmn : gn = mn := le_antisymm (hc ▸ hgn_le_mx) hmn_le_gn
    have hbmn : bn = mn := le_antisymm (hc ▸ hbn_le_mx) hmn_le_bn
    simp only [Prod.mk.injEq]
    refine ⟨?_, ?_, ?_⟩
    · rw [← hrnv, hrmn, hc]; ring
    · rw [← hgnv, hgmn, hc]; ring
    · rw [← hbnv, hbmn, hc]; ring
  · have hlt : mn < mx := lt_of_le_of_ne (le_trans hmn_le_rn hrn_le_mx) (Ne.symm hc)
    rw [if_neg hc]
    have hS := sat_pos mn mx hmn0 hlt hmx1
    rw [if_neg hS]
    have hT := t2_eq mn mx hmn0 hlt hmx1
    rw [hT]
    rw [show 2 * ((mn + mx) / 2) - mx = mn from by ring]
    have hd : mx - mn ≠ 0 := by linarith
    have hdpos : (0 : ℚ) < mx - mn := by linarith
    rw [if_neg hc]
    simp only [Prod.mk.injEq]
    by_cases hR : rn = mx
    · -- red is the maximum channel
      rw [if_pos hR]
      have hXnum_le : gn - bn ≤ mx - mn := by linarith
      have hXnum_ge : -(mx - mn) ≤ gn - bn := by linarith
      have hX1 : (gn - bn) / (mx - mn) ≤ 1 := by
        rw [div_le_one hdpos]; linarith
      have hXlo : (-1 : ℚ) ≤ (gn - bn) / (mx - mn) := by
        rw [le_div_iff hdpos]; linarith
      rw [min_eq_left (by linarith : (gn - bn) / (mx - mn) * 60 ≤ 360)]
      have hkey : (mx - mn) * ((gn - bn) / (mx - mn)) = gn - bn := by
        field_simp
      have hmxv : mx * 255 = r0 := by rw [← hR]; exact hrnv
      by_cases hsign : 0 ≤ gn - bn
      · -- g >= b: no negative-hue fix
        have hX0 : 0 ≤ (gn - bn) / (mx - mn) := div_nonneg hsign (le_of_lt hdpos)
        rw [if_neg (by linarith : ¬ (gn - bn) / (mx - mn) * 60 < 0)]
        have hmneq : mn = bn := by
          rw [hmn, min_eq_right (by linarith : bn ≤ gn), min_eq_right (by linarith : bn ≤ rn)]
        refine ⟨?_, ?_, ?_⟩
        · -- red channel
          rcases lt_or_eq_of_le hX1 with hX | hX
          · rw [hueChannel_B mn mx _ (by linarith) (by linarith)]
            exact hmxv
          · rw [hueChannel_C mn mx _ (by rw [hX]; norm_num) (by rw [hX]; norm_num)]
            rw [hX]
            linear_combination hmxv
        · -- green channel
          rcases lt_or_eq_of_le hX1 with hX | hX
          · rw [hueChannel_A mn mx _ (by linarith) (by linarith)]
            linear_combination 255 * hmneq + 255 * hkey + hgnv
          · rw [hueChannel_B mn mx _ (by rw [hX]; norm_num) (by rw [hX]; norm_num)]
            have hgmx : gn = mx := by
              have h2 := hkey
              rw [hX, mul_one] at h2
              linarith [hmneq]
            linear_combination hgnv - 255 * hgmx
        · -- blue channel
          rw [hueChannel_wrapNeg mn mx _ (by linarith) (by linarith)]
          rw [hueChannel_D mn mx _ (by linarith) (by linarith)]
          rw [hmneq]
          exact hbnv
      · -- g < b: hue comes out negative and is shifted by 360
        have hgb : gn - bn < 0 := by linarith
        have hXneg : (gn - bn) / (mx - mn) < 0 := div_neg_of_neg_of_pos hgb hdpos
        rw [if_pos (by nlinarith : (gn - bn) / (mx - mn) * 60 < 0)]
        have hmneq : mn = gn := by
          rw [hmn, min_eq_left (by linarith : gn ≤ bn), min_eq_right (by linarith : gn ≤ rn)]
        refine ⟨?_, ?_, ?_⟩
        · -- red channel
          rw [hueChannel_wrapHigh mn mx _ (by linarith) (by linarith)]
          rw [hueChannel_B mn mx _ (by linarith) (by linarith)]
          exact hmxv
        · -- green channel
          rw [hueChannel_D mn mx _ (by linarith) (by linarith)]
          rw [hmneq]
          exact hgnv
        · -- blue channel
          rw [hueChannel_C mn mx _ (by linarith) (by linarith)]
          linear_combination 255 * hmneq - 255 * hkey + hbnv
    · -- red is not the maximum channel
      rw [if_neg hR]
      by_cases hG : gn = mx
      · -- green is the maximum channel
        rw [if_pos hG]
        have hY1 : (bn - rn) / (mx - mn) ≤ 1 := by
          rw [div_le_one hdpos]; linarith
        have hYlo : (-1 : ℚ) ≤ (bn - rn) / (mx - mn) := by
          rw [le_div_iff hdpos]; linarith
        have hkeyY : (mx - mn) * ((bn - rn) / (mx - mn)) = bn - rn := by
          field_simp
        have hmxv : mx * 255 = g0 := by rw [← hG]; exact hgnv
        rw [min_eq_left (by linarith : (2 + (bn - rn) / (mx - mn)) * 60 ≤ 360)]
        rw [if_neg (by linarith : ¬ (2 + (bn - rn) / (mx - mn)) * 60 < 0)]
        by_cases hsign : 0 ≤ bn - rn
        · have hY0 : 0 ≤ (bn - rn) / (mx - mn) := div_nonneg hsign (le_of_lt hdpos)
          have hmneq : mn = rn := by
            rw [hmn]
            exact min_eq_left (le_min (by linarith) (by linarith))
          refine ⟨?_, ?_, ?_⟩
          · -- red channel
            rw [hueChannel_D mn mx _ (by linarith) (by linarith)]
            rw [hmneq]
            exact hrnv
          · -- green channel
            rcases lt_or_eq_of_le hY1 with hY | hY
            · rw [hueChannel_B mn mx _ (by linarith) (by linarith)]
              exact hmxv
            · rw [hueChannel_C mn mx _ (by rw [hY]; norm_num) (by rw [hY]; norm_num)]
              rw [hY]
              linear_combination hmxv
          · -- blue channel
            rcases lt_or_eq_of_le hY1 with hY | hY
            · rw [hueChannel_A mn mx _ (by linarith) (by linarith)]
              linear_combination 255 * hmneq + 255 * hkeyY + hbnv
            · rw [hueChannel_B mn mx _ (by rw [hY]; norm_num) (by rw [hY]; norm_num)]
              have hbmx : bn = mx := by
                have h2 := hkeyY
                rw [hY, mul_one] at h2
                linarith [hmneq]
              linear_combination hbnv - 255 * hbmx
        · have hbr : bn - rn < 0 := by linarith
          have hYneg : (bn - rn) / (mx - mn) < 0 := div_neg_of_neg_of_pos hbr hdpos
          have hmneq : mn = bn := by
            rw [hmn, min_eq_right (by linarith : bn ≤ gn), min_eq_right (by linarith : bn ≤ rn)]
          refine ⟨?_, ?_, ?_⟩
          · -- red channel
            rw [hueChannel_C mn mx _ (by linarith) (by linarith)]
            linear_combination 255 * hmneq - 255 * hkeyY + hrnv
          · -- green channel
            rw [hueChannel_B mn mx _ (by linarith) (by linarith)]
            exact hmxv
          · -- blue channel
            rw [hueChannel_wrapNeg mn mx _ (by linarith) (by linarith)]
            rw [hueChannel_D mn mx _ (by linarith) (by linarith)]
            rw [hmneq]
            exact hbnv
      · -- blue is the maximum channel
        rw [if_neg hG]
        have hB : bn = mx := by
          rcases max_choice rn (max gn bn) with h | h
          · rw [← hmx] at h
            exact absurd h.symm hR
          · rcases max_choice gn bn with h2 | h2
            · rw [← hmx, h2] at h
              exact absurd h.symm hG
            · rw [← hmx, h2] at h
              exact h.symm
        rw [if_pos hB]
        have hrlt : rn < mx := lt_of_le_of_ne hrn_le_mx hR
        have hZ1 : (rn - gn) / (mx - mn) < 1 := by
          rw [div_lt_one hdpos]; linarith
        have hZlo : (-1 : ℚ) ≤ (rn - gn) / (mx - mn) := by
          rw [le_div_iff hdpos]; linarith
        have hkeyZ : (mx - mn) * ((rn - gn) / (mx - mn)) = rn - gn := by
          field_simp
        have hmxvB : mx * 255 = b0 := by rw [← hB]; exact hbnv
        rw [min_eq_left (by linarith : (4 + (rn - gn) / (mx - mn)) * 60 ≤ 360)]
        rw [if_neg (by linarith : ¬ (4 + (rn - gn) / (mx - mn)) * 60 < 0)]
        by_cases hsign : 0 ≤ rn - gn
        · have hZ0 : 0 ≤ (rn - gn) / (mx - mn) := div_nonneg hsign (le_of_lt hdpos)
          have hmneq : mn = gn := by
            rw [hmn, min_eq_left (by linarith : gn ≤ bn), min_eq_right (by linarith : gn ≤ rn)]
          refine ⟨?_, ?_, ?_⟩
          · -- red channel
            rcases eq_or_lt_of_le hZ0 with hZ | hZ
            · rw [hueChannel_D mn mx _ (by rw [← hZ]; norm_num) (by rw [← hZ]; norm_num)]
              have hrg : rn = gn := by
                have h2 := hkeyZ
                rw [← hZ, mul_zero] at h2
                linarith
              linear_combination 255 * hmneq - 255 * hrg + hrnv
            · rw [hueChannel_wrapHigh mn mx _ (by linarith) (by linarith)]
              rw [hueChannel_A mn mx _ (by linarith) (by linarith)]
              linear_combination 255 * hmneq + 255 * hkeyZ + hrnv
          · -- green channel
            rw [hueChannel_D mn mx _ (by linarith) (by linarith)]
            rw [hmneq]
            exact hgnv
          · -- blue channel
            rw [hueChannel_B mn mx _ (by linarith) (by linarith)]
            exact hmxvB
        · have hrg : rn - gn < 0 := by linarith
          have hZneg : (rn - gn) / (mx - mn) < 0 := div_neg_of_neg_of_pos hrg hdpos
          have hmneq : mn = rn := by
            rw [hmn]
            exact min_eq_left (le_min (by linarith) (by linarith))
          refine ⟨?_, ?_, ?_⟩
          · -- red channel
            rw [hueChannel_D mn mx _ (by linarith) (by linarith)]
            rw [hmneq]
            exact hrnv
          · -- green channel
            rw [hueChannel_C mn mx _ (by linarith) (by linarith)]
            linear_combination 255 * hmneq - 255 * hkeyZ + hgnv
          · -- blue channel
            rw [hueChannel_B mn mx _ (by linarith) (by linarith)]
            exact hmxvB


lemma rgbToHsl_green : PS0.rgbToHsl (0, 255, 0) = (120, 100, 50) := by
  rw [rgbToHsl_eval]
  norm_num [min_def, max_def]

lemma hslToRgb_red : PS0.hslToRgb (0, 100, 50) = (255, 0, 0) := by
  unfold PS0.hslToRgb
  dsimp only
  rw [if_neg (by norm_num : ¬ (100:ℚ)/100 = 0)]
  rw [if_neg (by norm_num : ¬ (50:ℚ)/100 < 1/2)]
  rw [hueChannel_B _ _ _ (by norm_num) (by norm_num)]
  rw [hueChannel_A _ _ _ (by norm_num) (by norm_num)]
  rw [hueChannel_wrapNeg _ _ _ (by norm_num) (by norm_num)]
  rw [hueChannel_D _ _ _ (by norm_num) (by norm_num)]
  norm_num

lemma applyHue_green (a : ℚ) :
    PS0.applyHue 0 255 0 a 0 = "#ff0000" ++ PS0.hex a := by
  unfold PS0.applyHue PS0.hslToHex
  dsimp only
  rw [rgbToHsl_green]
  dsimp only
  rw [hslToRgb_red]
  dsimp only
  rw [show PS0.rgbaToHex 255 0 0 none = "#ff0000" from by decide]

/-- C8: the previous generation's HSL round trip over exact rational
arithmetic is the identity on every in-range color — so in particular each
channel of `hslToRgb (rgbToHsl c)` is within 1 of `c` — and `applyHue`
rotating pure green `(0,255,0)` to target hue `0` yields pure red
`#ff0000` with the original alpha byte appended unchanged. -/
theorem C8_roundtrip (r g b : ℚ)
    (hr0 : 0 ≤ r) (hr1 : r ≤ 255) (hg0 : 0 ≤ g) (hg1 : g ≤ 255)
    (hb0 : 0 ≤ b) (hb1 : b ≤ 255) :
    (PS0.hslToRgb (PS0.rgbToHsl (r, g, b)) = (r, g, b)
      ∧ |(PS0.hslToRgb (PS0.rgbToHsl (r, g, b))).1 - r| ≤ 1
      ∧ |(PS0.hslToRgb (PS0.rgbToHsl (r, g, b))).2.1 - g| ≤ 1
      ∧ |(PS0.hslToRgb (PS0.rgbToHsl (r, g, b))).2.2 - b| ≤ 1)
    ∧ (∀ a : ℚ, PS0.applyHue 0 255 0 a 0 = "#ff0000" ++ PS0.hex a) := by
  have h := hsl_roundtrip r g b hr0 hr1 hg0 hg1 hb0 hb1
  refine ⟨⟨h, ?_, ?_, ?_⟩, fun a => applyHue_green a⟩
  · rw [h]; simp
  · rw [h]; simp
  · rw [h]; simp

/-- Witness for C8 at the concrete opaque color `(12, 34, 56)` and a
concrete alpha `255` for the green-to-red example. -/
theorem C8_witness :
    PS0.hslToRgb (PS0.rgbToHsl (12, 34, 56)) = (12, 34, 56)
    ∧ PS0.applyHue 0 255 0 255 0 = "#ff0000" ++ PS0.hex 255 :=
  ⟨(C8_roundtrip 12 34 56 (by norm_num) (by norm_num) (by norm_num) (by norm_num)
      (by norm_num) (by norm_num)).1.1,
   (C8_roundtrip 12 34 56 (by norm_num) (by norm_num) (by norm_num) (by norm_num)
      (by norm_num) (by norm_num)).2 255⟩
